import Mathlib

/-!
Verification of the page-classification and record-segmentation engine of
split_fiches.py (split-fiches-salaire).

The Python core is shallowly embedded: Python strings become lists of
characters, the two regular expressions (the period pattern and the AVS
pattern) become executable leftmost-search functions, and the stateful
page scan of split_pdf becomes explicit state passing.  The external world
(text extraction per page, success or failure of each write of pages to
disk) is an explicit environment: each page yields either its text or an
exception message, and each write attempt, numbered in the order the code
performs them, either succeeds or raises a given message.  Write calls are
additionally recorded in an observation log so that properties about the
pages actually handed to the page writer can be stated.

Modelling conventions: the digit class of the patterns is the ASCII digits,
the whitespace class the ASCII whitespace characters, and word characters
are ASCII alphanumerics plus the underscore (the Python patterns also admit
further Unicode members of these classes; no claim depends on those).
Filesystem paths are directory-string plus slash plus name, and a
successful write into the output directory makes that name visible to the
later existence checks of the same run, which is how the code's
out_path.exists() tests behave inside one run on the freshly created
timestamped output directory.
-/

namespace SplitFiches

/-- Python strings are modelled as lists of characters. -/
abbrev Str := List Char

/-- Characters of a Lean string literal, used to embed Python string literals. -/
def strOf (s : String) : Str := s.data

/-- Model of the digit character class of the patterns (ASCII digits). -/
def isDigitC (c : Char) : Bool := c.isDigit

/-- Model of the whitespace character class of the patterns. -/
def isSpaceC (c : Char) : Bool :=
  c = ' ' || c = '\t' || c = '\n' || c = '\r' || c = '\x0b' || c = '\x0c'

/-- Model of the word-character class used by word boundaries. -/
def isWordC (c : Char) : Bool := c.isAlphanum || c = '_'

/-- The decimal digit character for a value below ten. -/
def digitChar (n : Nat) : Char := Char.ofNat (48 + n)

/-- Fuel-driven decimal rendering; the fuel always suffices when it exceeds n. -/
def decReprAux : Nat → Nat → Str
  | 0, _ => []
  | fuel + 1, n =>
    if n < 10 then [digitChar n]
    else decReprAux fuel (n / 10) ++ [digitChar (n % 10)]

/-- Decimal rendering of a natural number, as Python f-string formatting does. -/
def decRepr (n : Nat) : Str := decReprAux (n + 1) n

/-- Zero-padding to width three, as the Python 03d format specifier does. -/
def pad3 (n : Nat) : Str := List.replicate (3 - (decRepr n).length) '0' ++ decRepr n

/-- Numeric value of a digit character. -/
def digitVal (c : Char) : Nat := c.toNat - 48

/-- Read a digit string back into a number (leading zeros allowed). -/
def parseDigits (l : Str) : Nat := l.foldl (fun a c => a * 10 + digitVal c) 0

/-- Match a literal character sequence at the head of the text, returning the rest. -/
def matchLit : Str → Str → Option Str
  | [], t => some t
  | _ :: _, [] => none
  | c :: cs, d :: ds => if c = d then matchLit cs ds else none

/-- Consume exactly n digit characters, returning them and the rest. -/
def takeDigits : Nat → Str → Option (Str × Str)
  | 0, t => some ([], t)
  | _ + 1, [] => none
  | n + 1, c :: cs =>
    if isDigitC c then
      match takeDigits n cs with
      | some (d, rest) => some (c :: d, rest)
      | none => none
    else none

/-- Require the given single character at the head of the text. -/
def expectChar (ch : Char) : Str → Option Str
  | [] => none
  | c :: cs => if c = ch then some cs else none

/-- Match the period pattern at the current position: the literal word, optional
whitespace, a colon, optional whitespace, two digits, a dot, four digits;
returns the captured month and year digit groups. -/
def periodMatchAt (t : Str) : Option (Str × Str) :=
  match matchLit (strOf "Période") t with
  | none => none
  | some t1 =>
    match expectChar ':' (t1.dropWhile isSpaceC) with
    | none => none
    | some t3 =>
      match takeDigits 2 (t3.dropWhile isSpaceC) with
      | none => none
      | some (mo, t5) =>
        match expectChar '.' t5 with
        | none => none
        | some t6 =>
          match takeDigits 4 t6 with
          | none => none
          | some (yr, _) => some (mo, yr)

/-- Leftmost search for the period pattern, as re.search does. -/
def periodSearch : Str → Option (Str × Str)
  | [] => none
  | c :: cs =>
    match periodMatchAt (c :: cs) with
    | some r => some r
    | none => periodSearch cs

/-- Match the AVS digit pattern at the current position: three digits, a dot,
four digits, a dot, four digits, a dot, two digits; returns the matched
characters and the rest of the text. -/
def avsMatchAt (t : Str) : Option (Str × Str) :=
  match takeDigits 3 t with
  | none => none
  | some (a, t1) =>
    match expectChar '.' t1 with
    | none => none
    | some t2 =>
      match takeDigits 4 t2 with
      | none => none
      | some (b, t3) =>
        match expectChar '.' t3 with
        | none => none
        | some t4 =>
          match takeDigits 4 t4 with
          | none => none
          | some (c, t5) =>
            match expectChar '.' t5 with
            | none => none
            | some t6 =>
              match takeDigits 2 t6 with
              | none => none
              | some (d, t7) => some (a ++ '.' :: b ++ '.' :: c ++ '.' :: d, t7)

/-- Word boundary before the match: start of text or a preceding non-word character. -/
def boundaryBefore : Option Char → Bool
  | none => true
  | some c => !isWordC c

/-- Word boundary after the match: end of text or a following non-word character. -/
def boundaryAfter : Str → Bool
  | [] => true
  | c :: _ => !isWordC c

/-- Attempt of the AVS pattern at one position: the left word boundary, the
digit pattern, then the right word boundary. -/
def avsTryAt (prev : Option Char) (t : Str) : Option Str :=
  if boundaryBefore prev then
    match avsMatchAt t with
    | some (m, rest) => if boundaryAfter rest then some m else none
    | none => none
  else none

/-- Leftmost search for the AVS pattern with word boundaries on both sides;
the previous character is carried along to decide the left boundary. -/
def avsSearchAux (prev : Option Char) : Str → Option Str
  | [] => none
  | c :: cs =>
    match avsTryAt prev (c :: cs) with
    | some m => some m
    | none => avsSearchAux (some c) cs

/-- Leftmost search of the whole text for the AVS pattern. -/
def avsSearch (t : Str) : Option Str := avsSearchAux none t

/-- The French month-name table, keyed by two-digit month number. -/
def MONTHS_LIST : List (Str × Str) :=
  [(strOf "01", strOf "janvier"), (strOf "02", strOf "fevrier"), (strOf "03", strOf "mars"),
   (strOf "04", strOf "avril"), (strOf "05", strOf "mai"), (strOf "06", strOf "juin"),
   (strOf "07", strOf "juillet"), (strOf "08", strOf "aout"), (strOf "09", strOf "septembre"),
   (strOf "10", strOf "octobre"), (strOf "11", strOf "novembre"), (strOf "12", strOf "decembre")]

/-- Dictionary lookup on the month table, as the Python dict get call. -/
def MONTHS_FR (k : Str) : Option Str :=
  (MONTHS_LIST.find? (fun p => p.1 == k)).map Prod.snd

/-- Embedding of extract_filename_year_month_avs: the output base name
YYYY-month-AVS.pdf when the period pattern matches with a known month
number and the AVS pattern matches, else none. -/
def extract_filename_year_month_avs (page_text : Str) : Option Str :=
  match periodSearch page_text with
  | none => none
  | some (month_num, year) =>
    match MONTHS_FR month_num with
    | none => none
    | some month_name =>
      match avsSearch page_text with
      | none => none
      | some avs => some (year ++ '-' :: month_name ++ '-' :: avs ++ strOf ".pdf")

/-- Remove every occurrence of ".pdf", as the Python str.replace call does. -/
def replacePdf : Str → Str
  | '.' :: 'p' :: 'd' :: 'f' :: rest => replacePdf rest
  | c :: cs => c :: replacePdf cs
  | [] => []

/-- Split at the first two hyphens; none when fewer than two hyphens exist,
matching the unpacking failure of the Python split call. -/
def splitTwo (l : Str) : Option (Str × Str × Str) :=
  match l.dropWhile (fun c => c ≠ '-') with
  | '-' :: r1 =>
    match r1.dropWhile (fun c => c ≠ '-') with
    | '-' :: r2 => some (l.takeWhile (fun c => c ≠ '-'), r1.takeWhile (fun c => c ≠ '-'), r2)
    | _ => none
  | _ => none

/-- Embedding of parse_year_month_avs_from_filename. -/
def parse_year_month_avs_from_filename (filename : Str) : Str × Str × Str :=
  match splitTwo (replacePdf filename) with
  | some r => r
  | none => (strOf "-", strOf "-", strOf "-")

/-- Rendering of a page interval, one-indexed: "start-end" when the bounds
differ, else just "start". -/
def pagesStr (a b : Nat) : Str :=
  if a = b then decRepr a else decRepr a ++ '-' :: decRepr b

/-- Embedding of the Record dataclass: one Ledger entry. -/
structure Record where
  status : Str
  year : Str
  month : Str
  avs : Str
  pages : Str
  output_file : Str
  output_path : Str
  note : Str
deriving Repr, DecidableEq

/-- The external world of one run: per page either the extracted text or an
exception message, and for each write attempt (numbered in program order)
either success or an exception message, plus the two destination directories. -/
structure Env where
  pages : List (Except Str Str)
  writeRes : Nat → Option Str
  okDir : Str
  errDir : Str

/-- Path formed by a directory and a file name. -/
def pathJoin (dir name : Str) : Str := dir ++ '/' :: name

/-- State of the grouped-mode scan: the Ledger and counters, the open record
(its page indices, resolved base name and one-indexed start page), the names
present in the output directory, the write-attempt counter and the log of
write calls made so far. -/
structure GState where
  records : List Record
  ok_files : Nat
  fallback_pages : Nat
  errors : Nat
  orphan_pages : Nat
  current_pages : List Nat
  current_filename : Option Str
  current_start_page : Option Nat
  okNames : List Str
  wctr : Nat
  writeLog : List (List Nat × Str)
deriving Repr

/-- Initial grouped-mode state. -/
def initG : GState := ⟨[], 0, 0, 0, 0, [], none, none, [], 0, []⟩

/-- Name resolution of flush_current: the identity-derived base name, or, when
that name already exists in the destination, the name with the zero-padded
starting-page suffix appended. -/
def resolveName (fn : Str) (startPage : Nat) (existing : List Str) : Str :=
  if fn ∈ existing then
    fn.take (fn.length - 4) ++ strOf "_p" ++ pad3 startPage ++ strOf ".pdf"
  else fn

/-- Name resolution of the per-page mode: the identity-derived base name, or,
when that name already exists in the destination, the name with the
zero-padded page-number suffix appended. -/
def resolveName1 (fn : Str) (pageNo : Nat) (existing : List Str) : Str :=
  if fn ∈ existing then
    fn.take (fn.length - 4) ++ strOf "_page" ++ pad3 pageNo ++ strOf ".pdf"
  else fn

/-- Embedding of flush_current: finalize the open record, if any.  The start
page falls back to the first held page when the stored start page is absent
or zero (Python truthiness), mirroring the source exactly. -/
def flush_current (env : Env) (s : GState) : GState :=
  if s.current_pages = [] then s
  else
    let start_page :=
      match s.current_start_page with
      | some sp => if sp = 0 then s.current_pages.headD 0 + 1 else sp
      | none => s.current_pages.headD 0 + 1
    let end_page := s.current_pages.getLastD 0 + 1
    let pages_str := pagesStr start_page end_page
    match s.current_filename with
    | some fn =>
      let out_name := resolveName fn start_page s.okNames
      let out_path := pathJoin env.okDir out_name
      match env.writeRes s.wctr with
      | none =>
        let ya := parse_year_month_avs_from_filename out_name
        { s with
          ok_files := s.ok_files + 1,
          okNames := s.okNames ++ [out_name],
          wctr := s.wctr + 1,
          writeLog := s.writeLog ++ [(s.current_pages, out_path)],
          records := s.records ++
            [⟨strOf "OK", ya.1, ya.2.1, ya.2.2, pages_str, out_name, out_path, []⟩],
          current_pages := [], current_filename := none, current_start_page := none }
      | some e =>
        let err_name := strOf "error_slip_p" ++ pad3 start_page ++ strOf ".pdf"
        let err_path := pathJoin env.errDir err_name
        let ofop : Str × Str :=
          match env.writeRes (s.wctr + 1) with
          | none => (err_name, err_path)
          | some _ => (strOf "-", strOf "-")
        { s with
          errors := s.errors + 1,
          wctr := s.wctr + 2,
          writeLog := s.writeLog ++ [(s.current_pages, out_path), (s.current_pages, err_path)],
          records := s.records ++
            [⟨strOf "ERROR", strOf "-", strOf "-", strOf "-", pages_str, ofop.1, ofop.2, e⟩],
          current_pages := [], current_filename := none, current_start_page := none }
    | none =>
      let err_name := strOf "unknown_slip_p" ++ pad3 start_page ++ strOf ".pdf"
      let err_path := pathJoin env.errDir err_name
      match env.writeRes s.wctr with
      | none =>
        { s with
          fallback_pages := s.fallback_pages + s.current_pages.length,
          wctr := s.wctr + 1,
          writeLog := s.writeLog ++ [(s.current_pages, err_path)],
          records := s.records ++
            [⟨strOf "FALLBACK", strOf "-", strOf "-", strOf "-", pages_str, err_name, err_path,
              strOf "période/AVS non détectés"⟩],
          current_pages := [], current_filename := none, current_start_page := none }
      | some e =>
        { s with
          errors := s.errors + 1,
          wctr := s.wctr + 1,
          writeLog := s.writeLog ++ [(s.current_pages, err_path)],
          records := s.records ++
            [⟨strOf "ERROR", strOf "-", strOf "-", strOf "-", pages_str, strOf "-", strOf "-", e⟩],
          current_pages := [], current_filename := none, current_start_page := none }

/-- The page-level except branch of the grouped loop: count an error, make a
best-effort write of the single page to the error directory, append one
ERROR entry for that page; the open record is untouched. -/
def pageError (env : Env) (s : GState) (i : Nat) (e : Str) : GState :=
  let name := strOf "error_page_" ++ pad3 (i + 1) ++ strOf ".pdf"
  let path := pathJoin env.errDir name
  let ofop : Str × Str :=
    match env.writeRes s.wctr with
    | none => (name, path)
    | some _ => (strOf "-", strOf "-")
  { s with
    errors := s.errors + 1,
    wctr := s.wctr + 1,
    writeLog := s.writeLog ++ [([i], path)],
    records := s.records ++
      [⟨strOf "ERROR", strOf "-", strOf "-", strOf "-", decRepr (i + 1), ofop.1, ofop.2, e⟩] }

/-- One iteration of the grouped-mode page loop of split_pdf for page index i.
A complete identity flushes the open record and opens a new one at this page;
otherwise the page joins the open record, or is an orphan when none is open.
The orphan write happens inside the page-level try block, so its failure is
handled by the page-level except branch. -/
def gstep (env : Env) (s : GState) (ipg : Nat × Except Str Str) : GState :=
  let i := ipg.1
  match ipg.2 with
  | .error e => pageError env s i e
  | .ok text =>
    match extract_filename_year_month_avs text with
    | some fn =>
      let s1 := if s.current_pages = [] then s else flush_current env s
      { s1 with current_pages := [i], current_filename := some fn,
                current_start_page := some (i + 1) }
    | none =>
      if s.current_pages = [] then
        let name := strOf "orphan_page_" ++ pad3 (i + 1) ++ strOf ".pdf"
        let path := pathJoin env.errDir name
        match env.writeRes s.wctr with
        | none =>
          { s with
            orphan_pages := s.orphan_pages + 1,
            fallback_pages := s.fallback_pages + 1,
            wctr := s.wctr + 1,
            writeLog := s.writeLog ++ [([i], path)],
            records := s.records ++
              [⟨strOf "ORPHAN", strOf "-", strOf "-", strOf "-", decRepr (i + 1), name, path,
                strOf "page isolée avant toute fiche"⟩] }
        | some e =>
          pageError env { s with wctr := s.wctr + 1, writeLog := s.writeLog ++ [([i], path)] } i e
      else { s with current_pages := s.current_pages ++ [i] }

/-- The grouped-mode page loop over an indexed list of page outcomes. -/
def runPages (env : Env) : GState → List (Nat × Except Str Str) → GState
  | s, [] => s
  | s, x :: xs => runPages env (gstep env s x) xs

/-- The summary dictionary returned by split_pdf. -/
structure SplitResult where
  pages : Nat
  ok_files : Nat
  fallback_pages : Nat
  orphans : Nat
  errors : Nat
  records : List Record
deriving Repr

/-- Final state of the grouped-mode scan, terminal flush included. -/
def splitGroupedState (env : Env) : GState :=
  flush_current env (runPages env initG (List.enumFrom 0 env.pages))

/-- Embedding of split_pdf with group_multipage true. -/
def splitGrouped (env : Env) : SplitResult :=
  let s := splitGroupedState env
  ⟨env.pages.length, s.ok_files, s.fallback_pages, s.orphan_pages, s.errors, s.records⟩

/-- State of the one-page-per-file scan. -/
structure SState where
  records : List Record
  ok_files : Nat
  fallback_pages : Nat
  errors : Nat
  okNames : List Str
  wctr : Nat
  writeLog : List (List Nat × Str)
deriving Repr

/-- Initial per-page-mode state. -/
def initS : SState := ⟨[], 0, 0, 0, [], 0, []⟩

/-- The page-level except branch of the per-page loop. -/
def pageError1 (env : Env) (s : SState) (i : Nat) (e : Str) : SState :=
  let name := strOf "error_page_" ++ pad3 (i + 1) ++ strOf ".pdf"
  let path := pathJoin env.errDir name
  let ofop : Str × Str :=
    match env.writeRes s.wctr with
    | none => (name, path)
    | some _ => (strOf "-", strOf "-")
  { s with
    errors := s.errors + 1,
    wctr := s.wctr + 1,
    writeLog := s.writeLog ++ [([i], path)],
    records := s.records ++
      [⟨strOf "ERROR", strOf "-", strOf "-", strOf "-", decRepr (i + 1), ofop.1, ofop.2, e⟩] }

/-- One iteration of the per-page loop of split_pdf (group_multipage false).
All writes happen inside the page-level try block, so a write failure lands
in the except branch. -/
def sstep (env : Env) (s : SState) (ipg : Nat × Except Str Str) : SState :=
  let i := ipg.1
  match ipg.2 with
  | .error e => pageError1 env s i e
  | .ok text =>
    match extract_filename_year_month_avs text with
    | some fn =>
      let out_name := resolveName1 fn (i + 1) s.okNames
      let out_path := pathJoin env.okDir out_name
      match env.writeRes s.wctr with
      | none =>
        let ya := parse_year_month_avs_from_filename out_name
        { s with
          ok_files := s.ok_files + 1,
          okNames := s.okNames ++ [out_name],
          wctr := s.wctr + 1,
          writeLog := s.writeLog ++ [([i], out_path)],
          records := s.records ++
            [⟨strOf "OK", ya.1, ya.2.1, ya.2.2, decRepr (i + 1), out_name, out_path, []⟩] }
      | some e =>
        pageError1 env { s with wctr := s.wctr + 1, writeLog := s.writeLog ++ [([i], out_path)] } i e
    | none =>
      let name := strOf "fiche_page_" ++ pad3 (i + 1) ++ strOf ".pdf"
      let path := pathJoin env.errDir name
      match env.writeRes s.wctr with
      | none =>
        { s with
          fallback_pages := s.fallback_pages + 1,
          wctr := s.wctr + 1,
          writeLog := s.writeLog ++ [([i], path)],
          records := s.records ++
            [⟨strOf "FALLBACK", strOf "-", strOf "-", strOf "-", decRepr (i + 1), name, path,
              strOf "période/AVS non détectés"⟩] }
      | some e =>
        pageError1 env { s with wctr := s.wctr + 1, writeLog := s.writeLog ++ [([i], path)] } i e

/-- The per-page loop over an indexed list of page outcomes. -/
def runPages1 (env : Env) : SState → List (Nat × Except Str Str) → SState
  | s, [] => s
  | s, x :: xs => runPages1 env (sstep env s x) xs

/-- Final state of the per-page scan. -/
def splitSingleState (env : Env) : SState :=
  runPages1 env initS (List.enumFrom 0 env.pages)

/-- Embedding of split_pdf with group_multipage false; the orphan counter of
this mode is never incremented. -/
def splitSingle (env : Env) : SplitResult :=
  let s := splitSingleState env
  ⟨env.pages.length, s.ok_files, s.fallback_pages, 0, s.errors, s.records⟩

/-- Embedding of split_pdf: dispatch on the grouping flag. -/
def split_pdf (env : Env) (group_multipage : Bool) : SplitResult :=
  if group_multipage then splitGrouped env else splitSingle env

/-- First and last page number denoted by a rendered pages string. -/
def rangeOfPages (s : Str) : Nat × Nat :=
  let a := parseDigits (s.takeWhile (fun c => c ≠ '-'))
  match s.dropWhile (fun c => c ≠ '-') with
  | [] => (a, a)
  | _ :: r => (a, parseDigits r)

/-- Whether a Ledger entry's rendered page range contains page number p. -/
def coversPage (r : Record) (p : Nat) : Bool :=
  (rangeOfPages r.pages).1 ≤ p && p ≤ (rangeOfPages r.pages).2

/-- How many Ledger entries' rendered page ranges contain page number p. -/
def coverCount (recs : List Record) (p : Nat) : Nat :=
  recs.countP (fun r => coversPage r p)

/-- Number of Ledger entries with the given status. -/
def countStatus (recs : List Record) (st : Str) : Nat :=
  recs.countP (fun r => r.status = st)

/-- Output names of the RESOLVED (status OK) entries, in Ledger order. -/
def okFileList (recs : List Record) : List Str :=
  (recs.filter (fun r => r.status = strOf "OK")).map (fun r => r.output_file)

/-- Accumulator form of parseDigits, for reasoning about folds. -/
def parseFrom (a : Nat) (l : Str) : Nat := l.foldl (fun x c => x * 10 + digitVal c) a

theorem isDigit_digitChar {n : Nat} (h : n < 10) : isDigitC (digitChar n) = true := by
  interval_cases n <;> decide

theorem digitVal_digitChar {n : Nat} (h : n < 10) : digitVal (digitChar n) = n := by
  interval_cases n <;> decide

theorem decReprAux_eq : ∀ f1 f2 n, n < f1 → n < f2 → decReprAux f1 n = decReprAux f2 n := by
  intro f1
  induction f1 with
  | zero => intro f2 n h; omega
  | succ f ih =>
    intro f2 n h1 h2
    cases f2 with
    | zero => omega
    | succ g =>
      by_cases hn : n < 10
      · simp [decReprAux, hn]
      · have hd : n / 10 < n := Nat.div_lt_self (by omega) (by omega)
        simp only [decReprAux, if_neg hn]
        rw [ih g (n / 10) (by omega) (by omega)]

theorem decRepr_lt10 {n : Nat} (h : n < 10) : decRepr n = [digitChar n] := by
  simp [decRepr, decReprAux, h]

theorem decReprAux_succ (f n : Nat) :
    decReprAux (f + 1) n =
      if n < 10 then [digitChar n] else decReprAux f (n / 10) ++ [digitChar (n % 10)] := rfl

theorem decRepr_ge10 {n : Nat} (h : 10 ≤ n) :
    decRepr n = decRepr (n / 10) ++ [digitChar (n % 10)] := by
  have hd : n / 10 < n := Nat.div_lt_self (by omega) (by omega)
  have h1 : decRepr n = decReprAux n (n / 10) ++ [digitChar (n % 10)] := by
    rw [decRepr, decReprAux_succ, if_neg (by omega : ¬ n < 10)]
  rw [h1, decReprAux_eq n (n / 10 + 1) (n / 10) (by omega) (by omega)]
  rfl

theorem decRepr_digits : ∀ n, ∀ c ∈ decRepr n, isDigitC c = true := by
  intro n
  induction n using Nat.strong_induction_on with
  | _ n ih =>
    by_cases h : n < 10
    · rw [decRepr_lt10 h]
      intro c hc
      simp only [List.mem_singleton] at hc
      subst hc; exact isDigit_digitChar h
    · rw [decRepr_ge10 (by omega)]
      intro c hc
      rcases List.mem_append.1 hc with h1 | h1
      · exact ih (n / 10) (Nat.div_lt_self (by omega) (by omega)) c h1
      · simp only [List.mem_singleton] at h1
        subst h1; exact isDigit_digitChar (Nat.mod_lt _ (by omega))

theorem decRepr_ne_nil (n : Nat) : decRepr n ≠ [] := by
  by_cases h : n < 10
  · rw [decRepr_lt10 h]; simp
  · rw [decRepr_ge10 (by omega)]; simp

theorem parseFrom_decRepr : ∀ n a, parseFrom a (decRepr n) = a * 10 ^ (decRepr n).length + n := by
  intro n
  induction n using Nat.strong_induction_on with
  | _ n ih =>
    intro a
    by_cases h : n < 10
    · rw [decRepr_lt10 h]
      simp [parseFrom, digitVal_digitChar h]
    · rw [decRepr_ge10 (by omega)]
      have hd : n / 10 < n := Nat.div_lt_self (by omega) (by omega)
      unfold parseFrom
      rw [List.foldl_append]
      have := ih (n / 10) hd a
      unfold parseFrom at this
      rw [this]
      simp only [List.foldl_cons, List.foldl_nil, List.length_append, List.length_singleton]
      rw [digitVal_digitChar (Nat.mod_lt _ (by omega))]
      have : a * 10 ^ ((decRepr (n / 10)).length + 1) = a * 10 ^ (decRepr (n / 10)).length * 10 := by
        ring
      rw [this]
      have hnm : n / 10 * 10 + n % 10 = n := by omega
      omega

theorem parseDigits_decRepr (n : Nat) : parseDigits (decRepr n) = n := by
  have := parseFrom_decRepr n 0
  simpa [parseFrom, parseDigits] using this

theorem parseFrom_zeros : ∀ k, parseFrom 0 (List.replicate k '0') = 0 := by
  intro k
  induction k with
  | zero => rfl
  | succ m ih => simpa [parseFrom, List.replicate_succ, digitVal] using ih

theorem parseDigits_pad3 (n : Nat) : parseDigits (pad3 n) = n := by
  unfold pad3 parseDigits
  rw [List.foldl_append]
  have h0 := parseFrom_zeros (3 - (decRepr n).length)
  unfold parseFrom at h0
  rw [h0]
  have := parseDigits_decRepr n
  simpa [parseDigits, parseFrom] using this

theorem pad3_inj {a b : Nat} (h : pad3 a = pad3 b) : a = b := by
  have := parseDigits_pad3 a
  rw [h, parseDigits_pad3] at this
  omega

theorem pad3_digits (n : Nat) : ∀ c ∈ pad3 n, isDigitC c = true := by
  intro c hc
  rcases List.mem_append.1 hc with h1 | h1
  · rw [List.eq_of_mem_replicate h1]; decide
  · exact decRepr_digits n c h1

theorem digit_ne_hyphen {c : Char} (h : isDigitC c = true) : c ≠ '-' := by
  intro he; subst he; exact absurd h (by decide)

theorem digit_ne_underscore {c : Char} (h : isDigitC c = true) : c ≠ '_' := by
  intro he; subst he; exact absurd h (by decide)

theorem takeWhile_app {p : Char → Bool} :
    ∀ (l : Str) (c : Char) (r : Str), (∀ x ∈ l, p x = true) → p c = false →
    (l ++ c :: r).takeWhile p = l ∧ (l ++ c :: r).dropWhile p = c :: r := by
  intro l
  induction l with
  | nil =>
    intro c r _ hc
    constructor <;> simp [List.takeWhile, List.dropWhile, hc]
  | cons x xs ih =>
    intro c r hl hc
    have hx : p x = true := hl x (by simp)
    have := ih c r (fun y hy => hl y (by simp [hy])) hc
    constructor <;> simp [List.takeWhile, List.dropWhile, hx, this.1, this.2]

theorem takeWhile_all {p : Char → Bool} :
    ∀ l : Str, (∀ x ∈ l, p x = true) → l.takeWhile p = l ∧ l.dropWhile p = [] := by
  intro l
  induction l with
  | nil => simp
  | cons x xs ih =>
    intro hl
    have hx : p x = true := hl x (by simp)
    have := ih (fun y hy => hl y (by simp [hy]))
    constructor <;> simp [List.takeWhile, List.dropWhile, hx, this.1, this.2]

theorem rangeOfPages_decRepr (a : Nat) : rangeOfPages (decRepr a) = (a, a) := by
  have hall : ∀ x ∈ decRepr a, (decide (x ≠ '-')) = true := by
    intro x hx
    simpa using digit_ne_hyphen (decRepr_digits a x hx)
  have := takeWhile_all (p := fun c => decide (c ≠ '-')) (decRepr a) hall
  unfold rangeOfPages
  rw [this.1, this.2, parseDigits_decRepr]

theorem rangeOfPages_pagesStr (a b : Nat) : rangeOfPages (pagesStr a b) = (a, b) := by
  by_cases hab : a = b
  · subst hab
    rw [pagesStr, if_pos rfl, rangeOfPages_decRepr]
  · rw [pagesStr, if_neg hab]
    have hall : ∀ x ∈ decRepr a, (decide (x ≠ '-')) = true := by
      intro x hx
      simpa using digit_ne_hyphen (decRepr_digits a x hx)
    have h := takeWhile_app (p := fun c => decide (c ≠ '-')) (decRepr a) '-' (decRepr b) hall (by simp)
    unfold rangeOfPages
    rw [h.1, h.2]
    show (parseDigits (decRepr a), parseDigits (decRepr b)) = (a, b)
    rw [parseDigits_decRepr, parseDigits_decRepr]

theorem takeDigits_spec :
    ∀ (n : Nat) (l d rest : Str), takeDigits n l = some (d, rest) →
    l = d ++ rest ∧ d.length = n ∧ ∀ c ∈ d, isDigitC c = true := by
  intro n
  induction n with
  | zero =>
    intro l d rest h
    simp only [takeDigits, Option.some.injEq, Prod.mk.injEq] at h
    obtain ⟨h1, h2⟩ := h
    subst h1; subst h2
    simp
  | succ m ih =>
    intro l d rest h
    cases l with
    | nil => simp [takeDigits] at h
    | cons c cs =>
      simp only [takeDigits] at h
      by_cases hc : isDigitC c
      · rw [if_pos hc] at h
        cases htd : takeDigits m cs with
        | none => rw [htd] at h; simp at h
        | some pr =>
          obtain ⟨d2, rest2⟩ := pr
          rw [htd] at h
          simp only [Option.some.injEq, Prod.mk.injEq] at h
          obtain ⟨h1, h2⟩ := h
          subst h1; subst h2
          obtain ⟨ha, hb, hcx⟩ := ih cs d2 rest2 htd
          refine ⟨by rw [ha]; rfl, by simp [hb], ?_⟩
          intro x hx
          rcases List.mem_cons.1 hx with hx1 | hx1
          · subst hx1; exact hc
          · exact hcx x hx1
      · rw [if_neg hc] at h
        simp at h

theorem MONTHS_FR_no_underscore {k m : Str} (h : MONTHS_FR k = some m) : '_' ∉ m := by
  unfold MONTHS_FR at h
  cases hf : MONTHS_LIST.find? (fun p => p.1 == k) with
  | none => rw [hf] at h; exact Option.noConfusion h
  | some p =>
    rw [hf] at h
    injection h with h
    have hp : p ∈ MONTHS_LIST := List.mem_of_find?_eq_some hf
    subst h
    simp only [MONTHS_LIST, List.mem_cons, List.not_mem_nil, or_false] at hp
    rcases hp with rfl | rfl | rfl | rfl | rfl | rfl | rfl | rfl | rfl | rfl | rfl | rfl <;> decide

theorem expectChar_spec {ch : Char} :
    ∀ {l rest : Str}, expectChar ch l = some rest → l = ch :: rest := by
  intro l rest h
  cases l with
  | nil => exact Option.noConfusion h
  | cons c cs =>
    simp only [expectChar] at h
    by_cases hc : c = ch
    · rw [if_pos hc] at h
      injection h with h
      rw [hc, h]
    · rw [if_neg hc] at h
      exact Option.noConfusion h

theorem avsMatchAt_chars {t m rest : Str} (h : avsMatchAt t = some (m, rest)) :
    ∀ x ∈ m, isDigitC x = true ∨ x = '.' := by
  unfold avsMatchAt at h
  cases h3 : takeDigits 3 t with
  | none => simp only [h3] at h; exact Option.noConfusion h
  | some p3 =>
  obtain ⟨a, t1⟩ := p3
  simp only [h3] at h
  cases he1 : expectChar '.' t1 with
  | none => simp only [he1] at h; exact Option.noConfusion h
  | some t2 =>
  simp only [he1] at h
  cases h4 : takeDigits 4 t2 with
  | none => simp only [h4] at h; exact Option.noConfusion h
  | some p4 =>
  obtain ⟨b, t3⟩ := p4
  simp only [h4] at h
  cases he2 : expectChar '.' t3 with
  | none => simp only [he2] at h; exact Option.noConfusion h
  | some t4 =>
  simp only [he2] at h
  cases h5 : takeDigits 4 t4 with
  | none => simp only [h5] at h; exact Option.noConfusion h
  | some p5 =>
  obtain ⟨c, t5⟩ := p5
  simp only [h5] at h
  cases he3 : expectChar '.' t5 with
  | none => simp only [he3] at h; exact Option.noConfusion h
  | some t6 =>
  simp only [he3] at h
  cases h6 : takeDigits 2 t6 with
  | none => simp only [h6] at h; exact Option.noConfusion h
  | some p6 =>
  obtain ⟨d, t7⟩ := p6
  simp only [h6] at h
  simp only [Option.some.injEq, Prod.mk.injEq] at h
  obtain ⟨hm, _⟩ := h
  have da := (takeDigits_spec 3 t a t1 h3).2.2
  have db := (takeDigits_spec 4 t2 b t3 h4).2.2
  have dc := (takeDigits_spec 4 t4 c t5 h5).2.2
  have dd := (takeDigits_spec 2 t6 d t7 h6).2.2
  subst hm
  intro x hx
  rcases List.mem_append.1 hx with h | h
  swap
  · rcases List.mem_cons.1 h with h | h
    · exact Or.inr h
    · exact Or.inl (dd x h)
  rcases List.mem_append.1 h with h | h
  swap
  · rcases List.mem_cons.1 h with h | h
    · exact Or.inr h
    · exact Or.inl (dc x h)
  rcases List.mem_append.1 h with h | h
  · exact Or.inl (da x h)
  · rcases List.mem_cons.1 h with h | h
    · exact Or.inr h
    · exact Or.inl (db x h)

theorem avsTryAt_chars {prev : Option Char} {t m : Str} (h : avsTryAt prev t = some m) :
    ∀ x ∈ m, isDigitC x = true ∨ x = '.' := by
  unfold avsTryAt at h
  by_cases hb : boundaryBefore prev
  · rw [if_pos hb] at h
    cases hm : avsMatchAt t with
    | none => simp only [hm] at h; exact Option.noConfusion h
    | some p =>
      obtain ⟨mm, rest⟩ := p
      simp only [hm] at h
      by_cases ha : boundaryAfter rest
      · rw [if_pos ha] at h
        injection h with h
        subst h
        exact avsMatchAt_chars hm
      · rw [if_neg ha] at h
        exact Option.noConfusion h
  · rw [if_neg hb] at h
    exact Option.noConfusion h

theorem avsSearchAux_chars :
    ∀ (t : Str) (prev : Option Char) (m : Str), avsSearchAux prev t = some m →
    ∀ x ∈ m, isDigitC x = true ∨ x = '.' := by
  intro t
  induction t with
  | nil => intro prev m h; exact Option.noConfusion h
  | cons c cs ih =>
    intro prev m h
    unfold avsSearchAux at h
    cases ht : avsTryAt prev (c :: cs) with
    | some mm =>
      simp only [ht] at h
      injection h with h
      subst h
      exact avsTryAt_chars ht
    | none =>
      simp only [ht] at h
      exact ih (some c) m h

theorem avsSearch_chars {t m : Str} (h : avsSearch t = some m) :
    ∀ x ∈ m, isDigitC x = true ∨ x = '.' :=
  avsSearchAux_chars t none m h

theorem periodMatchAt_year {t mo yr : Str} (h : periodMatchAt t = some (mo, yr)) :
    ∀ x ∈ yr, isDigitC x = true := by
  unfold periodMatchAt at h
  cases h1 : matchLit (strOf "Période") t with
  | none => simp only [h1] at h; exact Option.noConfusion h
  | some t1 =>
  simp only [h1] at h
  cases h2 : expectChar ':' (t1.dropWhile isSpaceC) with
  | none => simp only [h2] at h; exact Option.noConfusion h
  | some t3 =>
  simp only [h2] at h
  cases h3 : takeDigits 2 (t3.dropWhile isSpaceC) with
  | none => simp only [h3] at h; exact Option.noConfusion h
  | some p3 =>
  obtain ⟨mo2, t5⟩ := p3
  simp only [h3] at h
  cases h4 : expectChar '.' t5 with
  | none => simp only [h4] at h; exact Option.noConfusion h
  | some t6 =>
  simp only [h4] at h
  cases h5 : takeDigits 4 t6 with
  | none => simp only [h5] at h; exact Option.noConfusion h
  | some p5 =>
  obtain ⟨yr2, t7⟩ := p5
  simp only [h5] at h
  simp only [Option.some.injEq, Prod.mk.injEq] at h
  obtain ⟨_, hy⟩ := h
  subst hy
  exact (takeDigits_spec 4 t6 yr2 t7 h5).2.2

theorem periodSearch_year :
    ∀ (t mo yr : Str), periodSearch t = some (mo, yr) → ∀ x ∈ yr, isDigitC x = true := by
  intro t
  induction t with
  | nil => intro mo yr h; exact Option.noConfusion h
  | cons c cs ih =>
    intro mo yr h
    unfold periodSearch at h
    cases hm : periodMatchAt (c :: cs) with
    | some r =>
      simp only [hm] at h
      injection h with h
      subst h
      exact periodMatchAt_year hm
    | none =>
      simp only [hm] at h
      exact ih mo yr h

/-- Shape of an identity-derived base name: no underscore, and a ".pdf" suffix. -/
def FnShape (fn : Str) : Prop := '_' ∉ fn ∧ ∃ base : Str, fn = base ++ strOf ".pdf"

theorem extract_FnShape {t fn : Str} (h : extract_filename_year_month_avs t = some fn) :
    FnShape fn := by
  unfold extract_filename_year_month_avs at h
  cases hp : periodSearch t with
  | none => simp only [hp] at h; exact Option.noConfusion h
  | some pr =>
  obtain ⟨mo, yr⟩ := pr
  simp only [hp] at h
  cases hmn : MONTHS_FR mo with
  | none => simp only [hmn] at h; exact Option.noConfusion h
  | some mn =>
  simp only [hmn] at h
  cases hav : avsSearch t with
  | none => simp only [hav] at h; exact Option.noConfusion h
  | some avs =>
  simp only [hav, Option.some.injEq] at h
  subst h
  have hyr := periodSearch_year t mo yr hp
  have hmn2 := MONTHS_FR_no_underscore hmn
  have havs := avsSearch_chars hav
  constructor
  · intro hin
    rcases List.mem_append.1 hin with h1 | h1
    swap
    · exact absurd h1 (by decide)
    rcases List.mem_append.1 h1 with h1 | h1
    swap
    · rcases List.mem_cons.1 h1 with h1 | h1
      · exact absurd h1 (by decide)
      · rcases havs _ h1 with h2 | h2
        · exact absurd h2 (by decide)
        · exact absurd h2 (by decide)
    rcases List.mem_append.1 h1 with h1 | h1
    · exact absurd (hyr _ h1) (by decide)
    · rcases List.mem_cons.1 h1 with h1 | h1
      · exact absurd h1 (by decide)
      · exact hmn2 h1
  · exact ⟨yr ++ '-' :: mn ++ '-' :: avs, by simp⟩

/-- The suffixed output name grouped mode uses on a name collision. -/
def suffName (base : Str) (sp : Nat) : Str := base ++ '_' :: 'p' :: (pad3 sp ++ strOf ".pdf")

/-- The suffixed output name per-page mode uses on a name collision. -/
def suffPageName (base : Str) (sp : Nat) : Str :=
  base ++ '_' :: 'p' :: 'a' :: 'g' :: 'e' :: (pad3 sp ++ strOf ".pdf")

theorem take_drop_pdf {fn base : Str} (h : fn = base ++ strOf ".pdf") :
    fn.take (fn.length - 4) = base := by
  subst h
  have h4 : (strOf ".pdf").length = 4 := rfl
  have hl : (base ++ strOf ".pdf").length - 4 = base.length := by
    simp [List.length_append, h4]
  rw [hl]
  exact List.take_left base _

theorem resolveName_mem {fn base : Str} {sp : Nat} {ex : List Str} (hmem : fn ∈ ex)
    (hb : fn = base ++ strOf ".pdf") : resolveName fn sp ex = suffName base sp := by
  unfold resolveName
  rw [if_pos hmem, take_drop_pdf hb]
  show base ++ ['_', 'p'] ++ pad3 sp ++ strOf ".pdf" = suffName base sp
  simp [suffName]

theorem resolveName_not_mem {fn : Str} {sp : Nat} {ex : List Str} (hmem : fn ∉ ex) :
    resolveName fn sp ex = fn := if_neg hmem

theorem underscore_split :
    ∀ (a u b v : Str), '_' ∉ a → '_' ∉ b → a ++ '_' :: u = b ++ '_' :: v →
    a = b ∧ u = v := by
  intro a
  induction a with
  | nil =>
    intro u b v _ hb h
    cases b with
    | nil =>
      simp only [List.nil_append] at h
      injection h with _ h
      exact ⟨rfl, h⟩
    | cons y ys =>
      simp only [List.nil_append, List.cons_append] at h
      injection h with h1 _
      have hm : '_' ∈ y :: ys := by rw [← h1]; exact List.mem_cons_self _ _
      exact absurd hm hb
  | cons x xs ih =>
    intro u b v ha hb h
    cases b with
    | nil =>
      simp only [List.cons_append, List.nil_append] at h
      injection h with h1 _
      have hm : '_' ∈ x :: xs := by rw [h1]; exact List.mem_cons_self _ _
      exact absurd hm ha
    | cons y ys =>
      simp only [List.cons_append] at h
      injection h with h1 h2
      have hx : '_' ∉ xs := fun hm => ha (List.mem_cons_of_mem x hm)
      have hy : '_' ∉ ys := fun hm => hb (List.mem_cons_of_mem y hm)
      obtain ⟨hb2, hv⟩ := ih u ys v hx hy h2
      exact ⟨by rw [h1, hb2], hv⟩

theorem mem_underscore_suffName (b : Str) (s : Nat) : '_' ∈ suffName b s := by
  simp [suffName]

theorem mem_underscore_suffPageName (b : Str) (s : Nat) : '_' ∈ suffPageName b s := by
  simp [suffPageName]

theorem suffName_inj {b1 b2 : Str} {s1 s2 : Nat} (h1 : '_' ∉ b1) (h2 : '_' ∉ b2)
    (h : suffName b1 s1 = suffName b2 s2) : b1 = b2 ∧ s1 = s2 := by
  obtain ⟨hb, ht⟩ := underscore_split b1 _ b2 _ h1 h2 h
  injection ht with _ ht
  exact ⟨hb, pad3_inj (List.append_cancel_right ht)⟩

theorem suffPageName_inj {b1 b2 : Str} {s1 s2 : Nat} (h1 : '_' ∉ b1) (h2 : '_' ∉ b2)
    (h : suffPageName b1 s1 = suffPageName b2 s2) : b1 = b2 ∧ s1 = s2 := by
  obtain ⟨hb, ht⟩ := underscore_split b1 _ b2 _ h1 h2 h
  injection ht with _ ht
  injection ht with _ ht
  injection ht with _ ht
  injection ht with _ ht
  exact ⟨hb, pad3_inj (List.append_cancel_right ht)⟩

theorem countStatus_append (recs : List Record) (r : Record) (st : Str) :
    countStatus (recs ++ [r]) st =
      countStatus recs st + (if r.status = st then 1 else 0) := by
  unfold countStatus
  rw [List.countP_append]
  by_cases h : r.status = st
  · simp [List.countP_cons, h]
  · simp [List.countP_cons, h]

theorem countStatus_append_ne {recs : List Record} {r : Record} {st : Str}
    (h : r.status ≠ st) : countStatus (recs ++ [r]) st = countStatus recs st := by
  rw [countStatus_append, if_neg h]
  omega

theorem countStatus_append_eq {recs : List Record} {r : Record} {st : Str}
    (h : r.status = st) : countStatus (recs ++ [r]) st = countStatus recs st + 1 := by
  rw [countStatus_append, if_pos h]

theorem okFileList_append_ne {recs : List Record} {r : Record}
    (h : r.status ≠ strOf "OK") : okFileList (recs ++ [r]) = okFileList recs := by
  unfold okFileList
  rw [List.filter_append, List.map_append]
  simp [h]

theorem okFileList_append_ok {recs : List Record} {r : Record}
    (h : r.status = strOf "OK") :
    okFileList (recs ++ [r]) = okFileList recs ++ [r.output_file] := by
  unfold okFileList
  rw [List.filter_append, List.map_append]
  simp [h]

/-- Shape of one RESOLVED output name in grouped mode: either an underscore-free
base name, or a base name with a starting-page suffix below the given bound. -/
def GOKShape (bound : Nat) (nm : Str) : Prop :=
  ('_' ∉ nm) ∨ ∃ b s, '_' ∉ b ∧ nm = suffName b s ∧ s < bound

theorem GOKShape_mono {nm : Str} {b1 b2 : Nat} (h : b1 ≤ b2) :
    GOKShape b1 nm → GOKShape b2 nm := by
  rintro (hn | ⟨b, s, h1, h2, h3⟩)
  · exact Or.inl hn
  · exact Or.inr ⟨b, s, h1, h2, by omega⟩

theorem GOKShape_ne_suffName {nm b : Str} {s bound : Nat} (hsh : GOKShape bound nm)
    (hb : '_' ∉ b) (hs : bound ≤ s) : nm ≠ suffName b s := by
  intro he
  rcases hsh with hn | ⟨b2, s2, hb2, hnm, hlt⟩
  · rw [he] at hn
    exact hn (mem_underscore_suffName b s)
  · rw [hnm] at he
    obtain ⟨_, hss⟩ := suffName_inj hb2 hb he
    omega

/-- Shape of one RESOLVED output name in per-page mode. -/
def SOKShape (bound : Nat) (nm : Str) : Prop :=
  ('_' ∉ nm) ∨ ∃ b s, '_' ∉ b ∧ nm = suffPageName b s ∧ s < bound

theorem SOKShape_mono {nm : Str} {b1 b2 : Nat} (h : b1 ≤ b2) :
    SOKShape b1 nm → SOKShape b2 nm := by
  rintro (hn | ⟨b, s, h1, h2, h3⟩)
  · exact Or.inl hn
  · exact Or.inr ⟨b, s, h1, h2, by omega⟩

theorem SOKShape_ne_suffPageName {nm b : Str} {s bound : Nat} (hsh : SOKShape bound nm)
    (hb : '_' ∉ b) (hs : bound ≤ s) : nm ≠ suffPageName b s := by
  intro he
  rcases hsh with hn | ⟨b2, s2, hb2, hnm, hlt⟩
  · rw [he] at hn
    exact hn (mem_underscore_suffPageName b s)
  · rw [hnm] at he
    obtain ⟨_, hss⟩ := suffPageName_inj hb2 hb he
    omega

theorem base_no_underscore {fn base : Str} (hu : '_' ∉ fn) (hb : fn = base ++ strOf ".pdf") :
    '_' ∉ base := fun hm => hu (hb ▸ List.mem_append_left _ hm)

theorem flush_nil {env : Env} {s : GState} (hcp : s.current_pages = []) :
    flush_current env s = s := by
  unfold flush_current
  rw [if_pos hcp]

theorem flush_char_ok (env : Env) (s : GState) (fn : Str) (sp : Nat)
    (hcp : ¬ s.current_pages = []) (hfn : s.current_filename = some fn)
    (hsp : s.current_start_page = some sp) (hsp0 : ¬ sp = 0)
    (hw : env.writeRes s.wctr = none) :
    flush_current env s =
      { s with
        ok_files := s.ok_files + 1,
        okNames := s.okNames ++ [resolveName fn sp s.okNames],
        wctr := s.wctr + 1,
        writeLog := s.writeLog ++
          [(s.current_pages, pathJoin env.okDir (resolveName fn sp s.okNames))],
        records := s.records ++
          [⟨strOf "OK",
            (parse_year_month_avs_from_filename (resolveName fn sp s.okNames)).1,
            (parse_year_month_avs_from_filename (resolveName fn sp s.okNames)).2.1,
            (parse_year_month_avs_from_filename (resolveName fn sp s.okNames)).2.2,
            pagesStr sp (s.current_pages.getLastD 0 + 1),
            resolveName fn sp s.okNames,
            pathJoin env.okDir (resolveName fn sp s.okNames), []⟩],
        current_pages := [], current_filename := none, current_start_page := none } := by
  unfold flush_current
  simp only [if_neg hcp, hfn, hsp, if_neg hsp0, hw]

theorem flush_char_fail (env : Env) (s : GState) (fn : Str) (sp : Nat) (e : Str)
    (hcp : ¬ s.current_pages = []) (hfn : s.current_filename = some fn)
    (hsp : s.current_start_page = some sp) (hsp0 : ¬ sp = 0)
    (hw : env.writeRes s.wctr = some e) :
    flush_current env s =
      { s with
        errors := s.errors + 1,
        wctr := s.wctr + 2,
        writeLog := s.writeLog ++
          [(s.current_pages, pathJoin env.okDir (resolveName fn sp s.okNames)),
           (s.current_pages,
            pathJoin env.errDir (strOf "error_slip_p" ++ pad3 sp ++ strOf ".pdf"))],
        records := s.records ++
          [⟨strOf "ERROR", strOf "-", strOf "-", strOf "-",
            pagesStr sp (s.current_pages.getLastD 0 + 1),
            (match env.writeRes (s.wctr + 1) with
             | none => ((strOf "error_slip_p" ++ pad3 sp ++ strOf ".pdf"),
                 pathJoin env.errDir (strOf "error_slip_p" ++ pad3 sp ++ strOf ".pdf"))
             | some _ => (strOf "-", strOf "-")).1,
            (match env.writeRes (s.wctr + 1) with
             | none => ((strOf "error_slip_p" ++ pad3 sp ++ strOf ".pdf"),
                 pathJoin env.errDir (strOf "error_slip_p" ++ pad3 sp ++ strOf ".pdf"))
             | some _ => (strOf "-", strOf "-")).2,
            e⟩],
        current_pages := [], current_filename := none, current_start_page := none } := by
  unfold flush_current
  simp only [if_neg hcp, hfn, hsp, if_neg hsp0, hw]

theorem gstep_error (env : Env) (s : GState) (i : Nat) (e : Str) :
    gstep env s (i, .error e) = pageError env s i e := rfl

theorem gstep_boundary {env : Env} {s : GState} {i : Nat} {text fn : Str}
    (hx : extract_filename_year_month_avs text = some fn) :
    gstep env s (i, .ok text) =
      { (if s.current_pages = [] then s else flush_current env s) with
        current_pages := [i], current_filename := some fn,
        current_start_page := some (i + 1) } := by
  unfold gstep
  simp only [hx]

theorem gstep_cont {env : Env} {s : GState} {i : Nat} {text : Str}
    (hx : extract_filename_year_month_avs text = none) (hcp : ¬ s.current_pages = []) :
    gstep env s (i, .ok text) = { s with current_pages := s.current_pages ++ [i] } := by
  unfold gstep
  simp only [hx, if_neg hcp]

theorem gstep_orphan_ok {env : Env} {s : GState} {i : Nat} {text : Str}
    (hx : extract_filename_year_month_avs text = none) (hcp : s.current_pages = [])
    (hw : env.writeRes s.wctr = none) :
    gstep env s (i, .ok text) =
      { s with
        orphan_pages := s.orphan_pages + 1,
        fallback_pages := s.fallback_pages + 1,
        wctr := s.wctr + 1,
        writeLog := s.writeLog ++
          [([i], pathJoin env.errDir (strOf "orphan_page_" ++ pad3 (i + 1) ++ strOf ".pdf"))],
        records := s.records ++
          [⟨strOf "ORPHAN", strOf "-", strOf "-", strOf "-", decRepr (i + 1),
            strOf "orphan_page_" ++ pad3 (i + 1) ++ strOf ".pdf",
            pathJoin env.errDir (strOf "orphan_page_" ++ pad3 (i + 1) ++ strOf ".pdf"),
            strOf "page isolée avant toute fiche"⟩] } := by
  unfold gstep
  simp only [hx, if_pos hcp, hw]

theorem gstep_orphan_fail {env : Env} {s : GState} {i : Nat} {text e : Str}
    (hx : extract_filename_year_month_avs text = none) (hcp : s.current_pages = [])
    (hw : env.writeRes s.wctr = some e) :
    gstep env s (i, .ok text) =
      pageError env
        { s with
          wctr := s.wctr + 1,
          writeLog := s.writeLog ++
            [([i], pathJoin env.errDir (strOf "orphan_page_" ++ pad3 (i + 1) ++ strOf ".pdf"))] }
        i e := by
  unfold gstep
  simp only [hx, if_pos hcp, hw]

theorem pageError_fields (env : Env) (s : GState) (i : Nat) (e : Str) :
    ∃ r : Record,
      pageError env s i e =
        { s with
          errors := s.errors + 1,
          wctr := s.wctr + 1,
          writeLog := s.writeLog ++
            [([i], pathJoin env.errDir (strOf "error_page_" ++ pad3 (i + 1) ++ strOf ".pdf"))],
          records := s.records ++ [r] } ∧
      r.status = strOf "ERROR" ∧ r.pages = decRepr (i + 1) ∧ r.note = e := by
  unfold pageError
  cases hw : env.writeRes s.wctr with
  | none => exact ⟨_, rfl, rfl, rfl, rfl⟩
  | some e2 => exact ⟨_, rfl, rfl, rfl, rfl⟩

/-- Starting-page bound for the suffix shapes: the open record's start page, or
one past the number of processed pages when no record is open. -/
def gBound (s : GState) (n : Nat) : Nat :=
  match s.current_start_page with
  | some sp => sp
  | none => n + 1

theorem gBound_open {s : GState} {n sp : Nat} (h : s.current_start_page = some sp) :
    gBound s n = sp := by
  unfold gBound
  rw [h]

theorem gBound_closed {s : GState} {n : Nat} (h : s.current_start_page = none) :
    gBound s n = n + 1 := by
  unfold gBound
  rw [h]

/-- The invariant of the grouped-mode scan after n pages have been processed:
an open record always carries a complete identity whose base name is
well-shaped and whose start page is a processed page; the RESOLVED output
names are pairwise distinct, present in the destination directory, and
shaped so that no future suffixed name can collide with them; every counter
equals its tally over the Ledger; and no FALLBACK entry exists. -/
structure InvG (s : GState) (n : Nat) : Prop where
  open_rec : s.current_pages ≠ [] →
    ∃ fn sp, s.current_filename = some fn ∧ s.current_start_page = some sp ∧
      FnShape fn ∧ 1 ≤ sp ∧ sp ≤ n ∧ s.current_pages.headD 0 = sp - 1
  closed_rec : s.current_pages = [] →
    s.current_filename = none ∧ s.current_start_page = none
  ok_distinct : (okFileList s.records).Pairwise (fun a b => a ≠ b)
  ok_mem : ∀ m ∈ okFileList s.records, m ∈ s.okNames
  ok_shape : ∀ m ∈ okFileList s.records, GOKShape (gBound s n) m
  cnt_ok : s.ok_files = countStatus s.records (strOf "OK")
  cnt_err : s.errors = countStatus s.records (strOf "ERROR")
  cnt_orph : s.orphan_pages = countStatus s.records (strOf "ORPHAN")
  cnt_fb : s.fallback_pages =
    countStatus s.records (strOf "FALLBACK") + countStatus s.records (strOf "ORPHAN")
  no_fb : countStatus s.records (strOf "FALLBACK") = 0

theorem InvG_init : InvG initG 0 := by
  refine ⟨?_, ?_, ?_, ?_, ?_, rfl, rfl, rfl, rfl, rfl⟩
  · intro h; exact absurd rfl h
  · intro _; exact ⟨rfl, rfl⟩
  · exact List.Pairwise.nil
  · intro m hm; exact absurd hm (by simp [initG, okFileList])
  · intro m hm; exact absurd hm (by simp [initG, okFileList])

theorem pairwise_append_singleton {l : List Str} {a : Str}
    (hl : l.Pairwise (fun x y => x ≠ y)) (ha : ∀ m ∈ l, m ≠ a) :
    (l ++ [a]).Pairwise (fun x y => x ≠ y) := by
  rw [List.pairwise_append]
  refine ⟨hl, by simp, ?_⟩
  intro x hx b hb
  simp only [List.mem_singleton] at hb
  subst hb
  exact ha x hx

theorem flush_InvG (env : Env) {s : GState} {n : Nat} (h : InvG s n) :
    InvG (flush_current env s) n := by
  by_cases hcp : s.current_pages = []
  · rw [flush_nil hcp]; exact h
  · obtain ⟨fn, sp, hfn, hsp, hshape, hsp1, hspn, _⟩ := h.open_rec hcp
    obtain ⟨hu, base, hb⟩ := hshape
    have hsp0 : ¬ sp = 0 := by omega
    have hnewok : ∀ m ∈ okFileList s.records, m ≠ resolveName fn sp s.okNames := by
      intro m hm
      by_cases hfm : fn ∈ s.okNames
      · rw [resolveName_mem hfm hb]
        have hbound : gBound s n = sp := gBound_open hsp
        exact GOKShape_ne_suffName (hbound ▸ h.ok_shape m hm) (base_no_underscore hu hb) le_rfl
      · rw [resolveName_not_mem hfm]
        intro he
        exact hfm (he ▸ h.ok_mem m hm)
    cases hw : env.writeRes s.wctr with
    | none =>
      have hch := flush_char_ok env s fn sp hcp hfn hsp hsp0 hw
      have hrex : ∃ r : Record, (flush_current env s).records = s.records ++ [r] ∧
          r.status = strOf "OK" ∧ r.output_file = resolveName fn sp s.okNames := by
        rw [hch]; exact ⟨_, rfl, rfl, rfl⟩
      obtain ⟨r, hrec, hrst, hrof⟩ := hrex
      have hcp2 : (flush_current env s).current_pages = [] := by rw [hch]
      have hfn2 : (flush_current env s).current_filename = none := by rw [hch]
      have hst2 : (flush_current env s).current_start_page = none := by rw [hch]
      have hokf : (flush_current env s).ok_files = s.ok_files + 1 := by rw [hch]
      have herr : (flush_current env s).errors = s.errors := by rw [hch]
      have horph : (flush_current env s).orphan_pages = s.orphan_pages := by rw [hch]
      have hfb : (flush_current env s).fallback_pages = s.fallback_pages := by rw [hch]
      have hnames : (flush_current env s).okNames =
          s.okNames ++ [resolveName fn sp s.okNames] := by rw [hch]
      have hfl : okFileList (flush_current env s).records =
          okFileList s.records ++ [resolveName fn sp s.okNames] := by
        rw [hrec, okFileList_append_ok hrst, hrof]
      have hcok : countStatus (flush_current env s).records (strOf "OK") =
          countStatus s.records (strOf "OK") + 1 := by
        rw [hrec, countStatus_append_eq hrst]
      have hcerr : countStatus (flush_current env s).records (strOf "ERROR") =
          countStatus s.records (strOf "ERROR") := by
        rw [hrec, countStatus_append_ne (by rw [hrst]; decide)]
      have hcorph : countStatus (flush_current env s).records (strOf "ORPHAN") =
          countStatus s.records (strOf "ORPHAN") := by
        rw [hrec, countStatus_append_ne (by rw [hrst]; decide)]
      have hcfb : countStatus (flush_current env s).records (strOf "FALLBACK") =
          countStatus s.records (strOf "FALLBACK") := by
        rw [hrec, countStatus_append_ne (by rw [hrst]; decide)]
      refine ⟨?_, ?_, ?_, ?_, ?_, ?_, ?_, ?_, ?_, ?_⟩
      · intro hx; exact absurd hcp2 hx
      · intro _; exact ⟨hfn2, hst2⟩
      · rw [hfl]; exact pairwise_append_singleton h.ok_distinct hnewok
      · rw [hfl, hnames]
        intro m hm
        rcases List.mem_append.1 hm with hm | hm
        · exact List.mem_append_left _ (h.ok_mem m hm)
        · exact List.mem_append_right _ hm
      · rw [hfl, gBound_closed hst2]
        intro m hm
        rcases List.mem_append.1 hm with hm | hm
        · have hs := h.ok_shape m hm
          rw [gBound_open hsp] at hs
          exact GOKShape_mono (by omega) hs
        · simp only [List.mem_singleton] at hm
          subst hm
          by_cases hfm : fn ∈ s.okNames
          · rw [resolveName_mem hfm hb]
            exact Or.inr ⟨base, sp, base_no_underscore hu hb, rfl, by omega⟩
          · rw [resolveName_not_mem hfm]
            exact Or.inl hu
      · rw [hokf, hcok, h.cnt_ok]
      · rw [herr, hcerr, h.cnt_err]
      · rw [horph, hcorph, h.cnt_orph]
      · rw [hfb, hcfb, hcorph, h.cnt_fb]
      · rw [hcfb, h.no_fb]
    | some e =>
      have hch := flush_char_fail env s fn sp e hcp hfn hsp hsp0 hw
      have hrex : ∃ r : Record, (flush_current env s).records = s.records ++ [r] ∧
          r.status = strOf "ERROR" := by
        rw [hch]; exact ⟨_, rfl, rfl⟩
      obtain ⟨r, hrec, hrst⟩ := hrex
      have hcp2 : (flush_current env s).current_pages = [] := by rw [hch]
      have hfn2 : (flush_current env s).current_filename = none := by rw [hch]
      have hst2 : (flush_current env s).current_start_page = none := by rw [hch]
      have hokf : (flush_current env s).ok_files = s.ok_files := by rw [hch]
      have herr : (flush_current env s).errors = s.errors + 1 := by rw [hch]
      have horph : (flush_current env s).orphan_pages = s.orphan_pages := by rw [hch]
      have hfb : (flush_current env s).fallback_pages = s.fallback_pages := by rw [hch]
      have hnames : (flush_current env s).okNames = s.okNames := by rw [hch]
      have hrstOK : r.status ≠ strOf "OK" := by rw [hrst]; decide
      have hfl : okFileList (flush_current env s).records = okFileList s.records := by
        rw [hrec, okFileList_append_ne hrstOK]
      have hcok : countStatus (flush_current env s).records (strOf "OK") =
          countStatus s.records (strOf "OK") := by
        rw [hrec, countStatus_append_ne hrstOK]
      have hcerr : countStatus (flush_current env s).records (strOf "ERROR") =
          countStatus s.records (strOf "ERROR") + 1 := by
        rw [hrec, countStatus_append_eq hrst]
      have hcorph : countStatus (flush_current env s).records (strOf "ORPHAN") =
          countStatus s.records (strOf "ORPHAN") := by
        rw [hrec, countStatus_append_ne (by rw [hrst]; decide)]
      have hcfb : countStatus (flush_current env s).records (strOf "FALLBACK") =
          countStatus s.records (strOf "FALLBACK") := by
        rw [hrec, countStatus_append_ne (by rw [hrst]; decide)]
      refine ⟨?_, ?_, ?_, ?_, ?_, ?_, ?_, ?_, ?_, ?_⟩
      · intro hx; exact absurd hcp2 hx
      · intro _; exact ⟨hfn2, hst2⟩
      · rw [hfl]; exact h.ok_distinct
      · rw [hfl, hnames]; exact h.ok_mem
      · rw [hfl, gBound_closed hst2]
        intro m hm
        have hs := h.ok_shape m hm
        rw [gBound_open hsp] at hs
        exact GOKShape_mono (by omega) hs
      · rw [hokf, hcok, h.cnt_ok]
      · rw [herr, hcerr, h.cnt_err]
      · rw [horph, hcorph, h.cnt_orph]
      · rw [hfb, hcfb, hcorph, h.cnt_fb]
      · rw [hcfb, h.no_fb]

theorem flush_resets {env : Env} {s : GState} (hcp : ¬ s.current_pages = []) :
    (flush_current env s).current_pages = [] ∧
    (flush_current env s).current_filename = none ∧
    (flush_current env s).current_start_page = none := by
  unfold flush_current
  rw [if_neg hcp]
  refine ⟨?_, ?_, ?_⟩ <;> (repeat' split) <;> rfl

theorem headD_append_of_ne {l : List Nat} {x d : Nat} (h : l ≠ []) :
    (l ++ [x]).headD d = l.headD d := by
  cases l with
  | nil => exact absurd rfl h
  | cons a t => rfl

/-- Appending one non-RESOLVED, non-FALLBACK Ledger entry while bumping the
matching counters preserves the grouped-run invariant. -/
theorem InvG_addRec {s t : GState} {n : Nat} (h : InvG s n) (r : Record)
    (hrnotok : r.status ≠ strOf "OK") (hrnotfb : r.status ≠ strOf "FALLBACK")
    (hrec : t.records = s.records ++ [r])
    (hcp : t.current_pages = s.current_pages)
    (hfn : t.current_filename = s.current_filename)
    (hst : t.current_start_page = s.current_start_page)
    (hnames : t.okNames = s.okNames)
    (hok : t.ok_files = s.ok_files)
    (herr : t.errors = s.errors + (if r.status = strOf "ERROR" then 1 else 0))
    (horph : t.orphan_pages = s.orphan_pages + (if r.status = strOf "ORPHAN" then 1 else 0))
    (hfb : t.fallback_pages = s.fallback_pages + (if r.status = strOf "ORPHAN" then 1 else 0)) :
    InvG t (n + 1) := by
  refine ⟨?_, ?_, ?_, ?_, ?_, ?_, ?_, ?_, ?_, ?_⟩
  · intro hx
    rw [hcp] at hx
    obtain ⟨fn, sp, h1, h2, h3, h4, h5, h6⟩ := h.open_rec hx
    exact ⟨fn, sp, by rw [hfn, h1], by rw [hst, h2], h3, h4, by omega, by rw [hcp, h6]⟩
  · intro hx
    rw [hcp] at hx
    obtain ⟨h1, h2⟩ := h.closed_rec hx
    exact ⟨by rw [hfn, h1], by rw [hst, h2]⟩
  · rw [hrec, okFileList_append_ne hrnotok]
    exact h.ok_distinct
  · rw [hrec, okFileList_append_ne hrnotok, hnames]
    exact h.ok_mem
  · rw [hrec, okFileList_append_ne hrnotok]
    intro m hm
    have hsh := h.ok_shape m hm
    cases hsv : s.current_start_page with
    | some sp =>
      rw [gBound_open hsv] at hsh
      rw [gBound_open (by rw [hst, hsv])]
      exact hsh
    | none =>
      rw [gBound_closed hsv] at hsh
      rw [gBound_closed (by rw [hst, hsv])]
      exact GOKShape_mono (by omega) hsh
  · rw [hok, hrec, countStatus_append_ne hrnotok, h.cnt_ok]
  · rw [herr, hrec, countStatus_append, h.cnt_err]
  · rw [horph, hrec, countStatus_append, h.cnt_orph]
  · rw [hfb, hrec, countStatus_append_ne hrnotfb, countStatus_append, h.cnt_fb]
    omega
  · rw [hrec, countStatus_append_ne hrnotfb, h.no_fb]

/-- Opening a fresh record at page index n on a closed state preserves the
grouped-run invariant. -/
theorem InvG_open {s1 : GState} {n : Nat} (h1 : InvG s1 n)
    (hst1 : s1.current_start_page = none) {fn : Str} (hsh : FnShape fn) :
    InvG { s1 with
           current_pages := [n],
           current_filename := some fn,
           current_start_page := some (n + 1) } (n + 1) := by
  refine ⟨?_, ?_, ?_, ?_, ?_, ?_, ?_, ?_, ?_, ?_⟩
  · intro _
    exact ⟨fn, n + 1, rfl, rfl, hsh, by omega, by omega, by simp⟩
  · intro hx
    exact absurd hx (by simp)
  · exact h1.ok_distinct
  · exact h1.ok_mem
  · intro m hm
    have hs := h1.ok_shape m hm
    rw [gBound_closed hst1] at hs
    rw [gBound_open rfl]
    exact hs
  · exact h1.cnt_ok
  · exact h1.cnt_err
  · exact h1.cnt_orph
  · exact h1.cnt_fb
  · exact h1.no_fb

theorem gstep_InvG (env : Env) {s : GState} {n : Nat} (h : InvG s n)
    (pg : Except Str Str) : InvG (gstep env s (n, pg)) (n + 1) := by
  cases pg with
  | error e =>
    rw [gstep_error]
    obtain ⟨r, hchr, hrst, _, _⟩ := pageError_fields env s n e
    refine InvG_addRec h r (by rw [hrst]; decide) (by rw [hrst]; decide) ?_ ?_ ?_ ?_ ?_ ?_ ?_ ?_ ?_
    · rw [hchr]
    · rw [hchr]
    · rw [hchr]
    · rw [hchr]
    · rw [hchr]
    · rw [hchr]
    · rw [hchr, hrst, if_pos rfl]
    · rw [hchr, hrst, if_neg (by decide)]; rfl
    · rw [hchr, hrst, if_neg (by decide)]; rfl
  | ok text =>
    cases hx : extract_filename_year_month_avs text with
    | some fn =>
      by_cases hcpv : s.current_pages = []
      · rw [gstep_boundary hx, if_pos hcpv]
        exact InvG_open h (h.closed_rec hcpv).2 (extract_FnShape hx)
      · rw [gstep_boundary hx, if_neg hcpv]
        exact InvG_open (flush_InvG env h) (flush_resets hcpv).2.2 (extract_FnShape hx)
    | none =>
      by_cases hcpv : s.current_pages = []
      · cases hw : env.writeRes s.wctr with
        | none =>
          obtain ⟨r, hchr, hrst⟩ :
              ∃ r : Record, gstep env s (n, .ok text) =
                { s with
                  orphan_pages := s.orphan_pages + 1,
                  fallback_pages := s.fallback_pages + 1,
                  wctr := s.wctr + 1,
                  writeLog := s.writeLog ++
                    [([n], pathJoin env.errDir
                      (strOf "orphan_page_" ++ pad3 (n + 1) ++ strOf ".pdf"))],
                  records := s.records ++ [r] } ∧ r.status = strOf "ORPHAN" := by
            rw [gstep_orphan_ok hx hcpv hw]
            exact ⟨_, rfl, rfl⟩
          refine InvG_addRec h r (by rw [hrst]; decide) (by rw [hrst]; decide)
            ?_ ?_ ?_ ?_ ?_ ?_ ?_ ?_ ?_
          · rw [hchr]
          · rw [hchr]
          · rw [hchr]
          · rw [hchr]
          · rw [hchr]
          · rw [hchr]
          · rw [hchr, hrst, if_neg (by decide)]; rfl
          · rw [hchr, hrst, if_pos rfl]
          · rw [hchr, hrst, if_pos rfl]
        | some e =>
          rw [gstep_orphan_fail hx hcpv hw]
          obtain ⟨r, hchr, hrst, _, _⟩ := pageError_fields env
            { s with
              wctr := s.wctr + 1,
              writeLog := s.writeLog ++
                [([n], pathJoin env.errDir
                  (strOf "orphan_page_" ++ pad3 (n + 1) ++ strOf ".pdf"))] } n e
          refine InvG_addRec h r (by rw [hrst]; decide) (by rw [hrst]; decide)
            ?_ ?_ ?_ ?_ ?_ ?_ ?_ ?_ ?_
          · rw [hchr]
          · rw [hchr]
          · rw [hchr]
          · rw [hchr]
          · rw [hchr]
          · rw [hchr]
          · rw [hchr, hrst, if_pos rfl]
          · rw [hchr, hrst, if_neg (by decide)]; rfl
          · rw [hchr, hrst, if_neg (by decide)]; rfl
      · rw [gstep_cont hx hcpv]
        obtain ⟨fn, sp, h1, h2, h3, h4, h5, h6⟩ := h.open_rec hcpv
        refine ⟨?_, ?_, ?_, ?_, ?_, ?_, ?_, ?_, ?_, ?_⟩
        · intro _
          exact ⟨fn, sp, h1, h2, h3, h4, by omega,
            by rw [show ({ s with current_pages := s.current_pages ++ [n] } :
              GState).current_pages = s.current_pages ++ [n] from rfl,
              headD_append_of_ne hcpv, h6]⟩
        · intro hx2
          exact absurd hx2 (by simp [hcpv])
        · exact h.ok_distinct
        · exact h.ok_mem
        · intro m hm
          have hs := h.ok_shape m hm
          rw [gBound_open h2] at hs
          rw [gBound_open (show ({ s with current_pages := s.current_pages ++ [n] } :
            GState).current_start_page = some sp from h2)]
          exact hs
        · exact h.cnt_ok
        · exact h.cnt_err
        · exact h.cnt_orph
        · exact h.cnt_fb
        · exact h.no_fb

theorem runPages_InvG (env : Env) :
    ∀ (l : List (Except Str Str)) (n : Nat) (s : GState), InvG s n →
    InvG (runPages env s (List.enumFrom n l)) (n + l.length) := by
  intro l
  induction l with
  | nil => intro n s h; simpa using h
  | cons x xs ih =>
    intro n s h
    have h2 := ih (n + 1) (gstep env s (n, x)) (gstep_InvG env h x)
    rw [show n + (x :: xs).length = (n + 1) + xs.length from by simp [List.length_cons]; omega]
    exact h2

/-- The grouped-mode loop state after the first k pages have been processed
(no terminal flush). -/
def stateAfter (env : Env) (k : Nat) : GState :=
  runPages env initG (List.enumFrom 0 (env.pages.take k))

theorem stateAfter_InvG (env : Env) (k : Nat) :
    InvG (stateAfter env k) (env.pages.take k).length := by
  have := runPages_InvG env (env.pages.take k) 0 initG InvG_init
  simpa [stateAfter] using this

theorem splitGroupedState_InvG (env : Env) :
    InvG (splitGroupedState env) env.pages.length := by
  have h := runPages_InvG env env.pages 0 initG InvG_init
  rw [Nat.zero_add] at h
  exact flush_InvG env h

theorem pagesStr_self (m : Nat) : pagesStr m m = decRepr m := if_pos rfl

theorem coverCount_append (recs : List Record) (r : Record) (p : Nat) :
    coverCount (recs ++ [r]) p =
      coverCount recs p + (if coversPage r p = true then 1 else 0) := by
  unfold coverCount
  rw [List.countP_append]
  by_cases h : coversPage r p = true
  · simp [List.countP_cons, h]
  · simp [List.countP_cons, h]

theorem coversPage_iff {r : Record} {a b : Nat} (h : r.pages = pagesStr a b) (p : Nat) :
    coversPage r p = true ↔ (a ≤ p ∧ p ≤ b) := by
  unfold coversPage
  rw [h, rangeOfPages_pagesStr]
  simp

theorem resolveName1_mem {fn base : Str} {pageNo : Nat} {ex : List Str} (hmem : fn ∈ ex)
    (hb : fn = base ++ strOf ".pdf") :
    resolveName1 fn pageNo ex = suffPageName base pageNo := by
  unfold resolveName1
  rw [if_pos hmem, take_drop_pdf hb]
  show base ++ ['_', 'p', 'a', 'g', 'e'] ++ pad3 pageNo ++ strOf ".pdf" = suffPageName base pageNo
  simp [suffPageName]

theorem resolveName1_not_mem {fn : Str} {pageNo : Nat} {ex : List Str} (hmem : fn ∉ ex) :
    resolveName1 fn pageNo ex = fn := if_neg hmem

/-- The invariant of the per-page scan after n pages: RESOLVED names are
pairwise distinct, present in the destination, and well-shaped; counters
equal their Ledger tallies; no ORPHAN entry exists; and the Ledger covers
pages 1..n exactly once each. -/
structure InvS (s : SState) (n : Nat) : Prop where
  ok_distinct : (okFileList s.records).Pairwise (fun a b => a ≠ b)
  ok_mem : ∀ m ∈ okFileList s.records, m ∈ s.okNames
  ok_shape : ∀ m ∈ okFileList s.records, SOKShape (n + 1) m
  cnt_ok : s.ok_files = countStatus s.records (strOf "OK")
  cnt_err : s.errors = countStatus s.records (strOf "ERROR")
  cnt_fb : s.fallback_pages = countStatus s.records (strOf "FALLBACK")
  no_orph : countStatus s.records (strOf "ORPHAN") = 0
  cover : ∀ p : Nat, coverCount s.records p = if 1 ≤ p ∧ p ≤ n then 1 else 0

theorem InvS_init : InvS initS 0 := by
  refine ⟨?_, ?_, ?_, rfl, rfl, rfl, rfl, ?_⟩
  · exact List.Pairwise.nil
  · intro m hm; exact absurd hm (by simp [initS, okFileList])
  · intro m hm; exact absurd hm (by simp [initS, okFileList])
  · intro p
    rw [if_neg (by omega)]
    rfl

theorem cover_step {recs : List Record} {r : Record} {n : Nat}
    (hcov : ∀ p : Nat, coverCount recs p = if 1 ≤ p ∧ p ≤ n then 1 else 0)
    (hpg : r.pages = decRepr (n + 1)) (p : Nat) :
    coverCount (recs ++ [r]) p = if 1 ≤ p ∧ p ≤ n + 1 then 1 else 0 := by
  have hc := coversPage_iff (r := r) (a := n + 1) (b := n + 1)
    (by rw [hpg, pagesStr_self]) p
  rw [coverCount_append, hcov p]
  by_cases hp : p = n + 1
  · subst hp
    rw [if_neg (by omega), if_pos (hc.2 ⟨le_rfl, le_rfl⟩), if_pos (by omega)]
  · have hcv : ¬ (coversPage r p = true) := fun hcc => hp (by have := hc.1 hcc; omega)
    rw [if_neg hcv]
    by_cases h1 : 1 ≤ p ∧ p ≤ n
    · rw [if_pos h1, if_pos (by omega)]
    · rw [if_neg h1, if_neg (by omega)]

theorem pageError1_fields (env : Env) (s : SState) (i : Nat) (e : Str) :
    ∃ r : Record,
      pageError1 env s i e =
        { s with
          errors := s.errors + 1,
          wctr := s.wctr + 1,
          writeLog := s.writeLog ++
            [([i], pathJoin env.errDir (strOf "error_page_" ++ pad3 (i + 1) ++ strOf ".pdf"))],
          records := s.records ++ [r] } ∧
      r.status = strOf "ERROR" ∧ r.pages = decRepr (i + 1) ∧ r.note = e := by
  unfold pageError1
  cases hw : env.writeRes s.wctr with
  | none => exact ⟨_, rfl, rfl, rfl, rfl⟩
  | some e2 => exact ⟨_, rfl, rfl, rfl, rfl⟩

/-- Appending one non-RESOLVED, non-ORPHAN Ledger entry for page n+1 while
bumping the matching counters preserves the per-page invariant. -/
theorem InvS_addRec {s t : SState} {n : Nat} (h : InvS s n) (r : Record)
    (hrnotok : r.status ≠ strOf "OK") (hrnotorph : r.status ≠ strOf "ORPHAN")
    (hpg : r.pages = decRepr (n + 1))
    (hrec : t.records = s.records ++ [r])
    (hnames : t.okNames = s.okNames)
    (hok : t.ok_files = s.ok_files)
    (herr : t.errors = s.errors + (if r.status = strOf "ERROR" then 1 else 0))
    (hfb : t.fallback_pages =
      s.fallback_pages + (if r.status = strOf "FALLBACK" then 1 else 0)) :
    InvS t (n + 1) := by
  refine ⟨?_, ?_, ?_, ?_, ?_, ?_, ?_, ?_⟩
  · rw [hrec, okFileList_append_ne hrnotok]
    exact h.ok_distinct
  · rw [hrec, okFileList_append_ne hrnotok, hnames]
    exact h.ok_mem
  · rw [hrec, okFileList_append_ne hrnotok]
    intro m hm
    exact SOKShape_mono (by omega) (h.ok_shape m hm)
  · rw [hok, hrec, countStatus_append_ne hrnotok, h.cnt_ok]
  · rw [herr, hrec, countStatus_append, h.cnt_err]
  · rw [hfb, hrec, countStatus_append, h.cnt_fb]
  · rw [hrec, countStatus_append_ne hrnotorph, h.no_orph]
  · intro p
    rw [hrec]
    exact cover_step h.cover hpg p

theorem sstep_error (env : Env) (s : SState) (i : Nat) (e : Str) :
    sstep env s (i, .error e) = pageError1 env s i e := rfl

theorem sstep_ok_write {env : Env} {s : SState} {i : Nat} {text fn : Str}
    (hx : extract_filename_year_month_avs text = some fn)
    (hw : env.writeRes s.wctr = none) :
    sstep env s (i, .ok text) =
      { s with
        ok_files := s.ok_files + 1,
        okNames := s.okNames ++ [resolveName1 fn (i + 1) s.okNames],
        wctr := s.wctr + 1,
        writeLog := s.writeLog ++
          [([i], pathJoin env.okDir (resolveName1 fn (i + 1) s.okNames))],
        records := s.records ++
          [⟨strOf "OK",
            (parse_year_month_avs_from_filename (resolveName1 fn (i + 1) s.okNames)).1,
            (parse_year_month_avs_from_filename (resolveName1 fn (i + 1) s.okNames)).2.1,
            (parse_year_month_avs_from_filename (resolveName1 fn (i + 1) s.okNames)).2.2,
            decRepr (i + 1),
            resolveName1 fn (i + 1) s.okNames,
            pathJoin env.okDir (resolveName1 fn (i + 1) s.okNames), []⟩] } := by
  unfold sstep
  simp only [hx, hw]

theorem sstep_ok_fail {env : Env} {s : SState} {i : Nat} {text fn e : Str}
    (hx : extract_filename_year_month_avs text = some fn)
    (hw : env.writeRes s.wctr = some e) :
    sstep env s (i, .ok text) =
      pageError1 env
        { s with
          wctr := s.wctr + 1,
          writeLog := s.writeLog ++
            [([i], pathJoin env.okDir (resolveName1 fn (i + 1) s.okNames))] }
        i e := by
  unfold sstep
  simp only [hx, hw]

theorem sstep_fb_write {env : Env} {s : SState} {i : Nat} {text : Str}
    (hx : extract_filename_year_month_avs text = none)
    (hw : env.writeRes s.wctr = none) :
    sstep env s (i, .ok text) =
      { s with
        fallback_pages := s.fallback_pages + 1,
        wctr := s.wctr + 1,
        writeLog := s.writeLog ++
          [([i], pathJoin env.errDir (strOf "fiche_page_" ++ pad3 (i + 1) ++ strOf ".pdf"))],
        records := s.records ++
          [⟨strOf "FALLBACK", strOf "-", strOf "-", strOf "-", decRepr (i + 1),
            strOf "fiche_page_" ++ pad3 (i + 1) ++ strOf ".pdf",
            pathJoin env.errDir (strOf "fiche_page_" ++ pad3 (i + 1) ++ strOf ".pdf"),
            strOf "période/AVS non détectés"⟩] } := by
  unfold sstep
  simp only [hx, hw]

theorem sstep_fb_fail {env : Env} {s : SState} {i : Nat} {text e : Str}
    (hx : extract_filename_year_month_avs text = none)
    (hw : env.writeRes s.wctr = some e) :
    sstep env s (i, .ok text) =
      pageError1 env
        { s with
          wctr := s.wctr + 1,
          writeLog := s.writeLog ++
            [([i], pathJoin env.errDir (strOf "fiche_page_" ++ pad3 (i + 1) ++ strOf ".pdf"))] }
        i e := by
  unfold sstep
  simp only [hx, hw]

theorem sstep_InvS (env : Env) {s : SState} {n : Nat} (h : InvS s n)
    (pg : Except Str Str) : InvS (sstep env s (n, pg)) (n + 1) := by
  cases pg with
  | error e =>
    rw [sstep_error]
    obtain ⟨r, hchr, hrst, hrpg, _⟩ := pageError1_fields env s n e
    refine InvS_addRec h r (by rw [hrst]; decide) (by rw [hrst]; decide) hrpg
      ?_ ?_ ?_ ?_ ?_
    · rw [hchr]
    · rw [hchr]
    · rw [hchr]
    · rw [hchr, hrst, if_pos rfl]
    · rw [hchr, hrst, if_neg (by decide)]; rfl
  | ok text =>
    cases hx : extract_filename_year_month_avs text with
    | some fn =>
      obtain ⟨hu, base, hb⟩ := extract_FnShape hx
      cases hw : env.writeRes s.wctr with
      | none =>
        have hch := sstep_ok_write (i := n) hx hw
        have hrex : ∃ r : Record, (sstep env s (n, .ok text)).records = s.records ++ [r] ∧
            r.status = strOf "OK" ∧ r.output_file = resolveName1 fn (n + 1) s.okNames ∧
            r.pages = decRepr (n + 1) := by
          rw [hch]; exact ⟨_, rfl, rfl, rfl, rfl⟩
        obtain ⟨r, hrec, hrst, hrof, hrpg⟩ := hrex
        have hnames : (sstep env s (n, .ok text)).okNames =
            s.okNames ++ [resolveName1 fn (n + 1) s.okNames] := by rw [hch]
        have hokf : (sstep env s (n, .ok text)).ok_files = s.ok_files + 1 := by rw [hch]
        have herr : (sstep env s (n, .ok text)).errors = s.errors := by rw [hch]
        have hfb : (sstep env s (n, .ok text)).fallback_pages = s.fallback_pages := by
          rw [hch]
        have hfl : okFileList (sstep env s (n, .ok text)).records =
            okFileList s.records ++ [resolveName1 fn (n + 1) s.okNames] := by
          rw [hrec, okFileList_append_ok hrst, hrof]
        have hnewok : ∀ m ∈ okFileList s.records,
            m ≠ resolveName1 fn (n + 1) s.okNames := by
          intro m hm
          by_cases hfm : fn ∈ s.okNames
          · rw [resolveName1_mem hfm hb]
            exact SOKShape_ne_suffPageName (h.ok_shape m hm)
              (base_no_underscore hu hb) le_rfl
          · rw [resolveName1_not_mem hfm]
            intro he
            exact hfm (he ▸ h.ok_mem m hm)
        refine ⟨?_, ?_, ?_, ?_, ?_, ?_, ?_, ?_⟩
        · rw [hfl]
          exact pairwise_append_singleton h.ok_distinct hnewok
        · rw [hfl, hnames]
          intro m hm
          rcases List.mem_append.1 hm with hm | hm
          · exact List.mem_append_left _ (h.ok_mem m hm)
          · exact List.mem_append_right _ hm
        · rw [hfl]
          intro m hm
          rcases List.mem_append.1 hm with hm | hm
          · exact SOKShape_mono (by omega) (h.ok_shape m hm)
          · simp only [List.mem_singleton] at hm
            subst hm
            by_cases hfm : fn ∈ s.okNames
            · rw [resolveName1_mem hfm hb]
              exact Or.inr ⟨base, n + 1, base_no_underscore hu hb, rfl, by omega⟩
            · rw [resolveName1_not_mem hfm]
              exact Or.inl hu
        · rw [hokf, hrec, countStatus_append_eq hrst, h.cnt_ok]
        · rw [herr, hrec, countStatus_append_ne (by rw [hrst]; decide), h.cnt_err]
        · rw [hfb, hrec, countStatus_append_ne (by rw [hrst]; decide), h.cnt_fb]
        · rw [hrec, countStatus_append_ne (by rw [hrst]; decide), h.no_orph]
        · intro p
          rw [hrec]
          exact cover_step h.cover hrpg p
      | some e =>
        rw [sstep_ok_fail hx hw]
        obtain ⟨r, hchr, hrst, hrpg, _⟩ := pageError1_fields env
          { s with
            wctr := s.wctr + 1,
            writeLog := s.writeLog ++
              [([n], pathJoin env.okDir (resolveName1 fn (n + 1) s.okNames))] } n e
        refine InvS_addRec h r (by rw [hrst]; decide) (by rw [hrst]; decide) hrpg
          ?_ ?_ ?_ ?_ ?_
        · rw [hchr]
        · rw [hchr]
        · rw [hchr]
        · rw [hchr, hrst, if_pos rfl]
        · rw [hchr, hrst, if_neg (by decide)]; rfl
    | none =>
      cases hw : env.writeRes s.wctr with
      | none =>
        have hch := sstep_fb_write (i := n) hx hw
        have hrex : ∃ r : Record, (sstep env s (n, .ok text)).records = s.records ++ [r] ∧
            r.status = strOf "FALLBACK" ∧ r.pages = decRepr (n + 1) ∧
            (sstep env s (n, .ok text)).okNames = s.okNames ∧
            (sstep env s (n, .ok text)).ok_files = s.ok_files ∧
            (sstep env s (n, .ok text)).errors = s.errors ∧
            (sstep env s (n, .ok text)).fallback_pages = s.fallback_pages + 1 := by
          rw [hch]; exact ⟨_, rfl, rfl, rfl, rfl, rfl, rfl, rfl⟩
        obtain ⟨r, hrec, hrst, hrpg, hnames, hokf, herr, hfb⟩ := hrex
        refine InvS_addRec h r (by rw [hrst]; decide) (by rw [hrst]; decide) hrpg
          hrec hnames hokf ?_ ?_
        · rw [herr, hrst, if_neg (by decide)]; rfl
        · rw [hfb, hrst, if_pos rfl]
      | some e =>
        rw [sstep_fb_fail hx hw]
        obtain ⟨r, hchr, hrst, hrpg, _⟩ := pageError1_fields env
          { s with
            wctr := s.wctr + 1,
            writeLog := s.writeLog ++
              [([n], pathJoin env.errDir
                (strOf "fiche_page_" ++ pad3 (n + 1) ++ strOf ".pdf"))] } n e
        refine InvS_addRec h r (by rw [hrst]; decide) (by rw [hrst]; decide) hrpg
          ?_ ?_ ?_ ?_ ?_
        · rw [hchr]
        · rw [hchr]
        · rw [hchr]
        · rw [hchr, hrst, if_pos rfl]
        · rw [hchr, hrst, if_neg (by decide)]; rfl

theorem runPages1_InvS (env : Env) :
    ∀ (l : List (Except Str Str)) (n : Nat) (s : SState), InvS s n →
    InvS (runPages1 env s (List.enumFrom n l)) (n + l.length) := by
  intro l
  induction l with
  | nil => intro n s h; simpa using h
  | cons x xs ih =>
    intro n s h
    have h2 := ih (n + 1) (sstep env s (n, x)) (sstep_InvS env h x)
    rw [show n + (x :: xs).length = (n + 1) + xs.length from by simp [List.length_cons]; omega]
    exact h2

theorem splitSingleState_InvS (env : Env) :
    InvS (splitSingleState env) env.pages.length := by
  have h := runPages1_InvS env env.pages 0 initS InvS_init
  rw [Nat.zero_add] at h
  exact h

/-- Coverage invariant of the grouped scan on extraction-error-free runs: with
no record open the Ledger covers pages 1..n exactly once; with a record open
since page sp the held page indices are exactly sp-1..n-1 and the Ledger
covers pages 1..sp-1 exactly once. -/
structure InvCov (s : GState) (n : Nat) : Prop where
  cov_closed : s.current_pages = [] →
    ∀ p : Nat, coverCount s.records p = if 1 ≤ p ∧ p ≤ n then 1 else 0
  cov_open : ∀ sp, s.current_start_page = some sp →
    s.current_pages = List.range' (sp - 1) (n + 1 - sp) ∧
    ∀ p : Nat, coverCount s.records p = if 1 ≤ p ∧ p ≤ sp - 1 then 1 else 0

theorem InvCov_init : InvCov initG 0 := by
  refine ⟨?_, ?_⟩
  · intro _ p
    rw [if_neg (by omega)]
    rfl
  · intro sp hsp
    exact absurd hsp (by simp [initG])

theorem flush_cov (env : Env) {s : GState} {n : Nat} (hg : InvG s n) (hc : InvCov s n) :
    ∀ p : Nat, coverCount (flush_current env s).records p =
      if 1 ≤ p ∧ p ≤ n then 1 else 0 := by
  by_cases hcp : s.current_pages = []
  · rw [flush_nil hcp]
    exact hc.cov_closed hcp
  · obtain ⟨fn, sp, hfn, hsp, _, hsp1, hspn, _⟩ := hg.open_rec hcp
    obtain ⟨hrange, hcov⟩ := hc.cov_open sp hsp
    have hlen : 1 ≤ n + 1 - sp := by
      rcases Nat.eq_zero_or_pos (n + 1 - sp) with h0 | h0
      · exact absurd (by rw [hrange, h0]; rfl) hcp
      · omega
    have hlast : s.current_pages.getLastD 0 = n - 1 := by
      rw [hrange, show n + 1 - sp = (n - sp) + 1 from by omega, List.range'_concat]
      simp
      omega
    have hend : s.current_pages.getLastD 0 + 1 = n := by omega
    have hsp0 : ¬ sp = 0 := by omega
    have hrex : ∃ r : Record, (flush_current env s).records = s.records ++ [r] ∧
        r.pages = pagesStr sp (s.current_pages.getLastD 0 + 1) := by
      cases hw : env.writeRes s.wctr with
      | none =>
        rw [flush_char_ok env s fn sp hcp hfn hsp hsp0 hw]
        exact ⟨_, rfl, rfl⟩
      | some e =>
        rw [flush_char_fail env s fn sp e hcp hfn hsp hsp0 hw]
        exact ⟨_, rfl, rfl⟩
    obtain ⟨r, hrec, hrpg⟩ := hrex
    rw [hend] at hrpg
    intro p
    rw [hrec, coverCount_append, hcov p]
    have hcif := coversPage_iff hrpg p
    by_cases hin : sp ≤ p ∧ p ≤ n
    · rw [if_pos (hcif.2 hin), if_neg (by omega), if_pos (by omega)]
    · rw [if_neg (fun hcc => hin (hcif.1 hcc))]
      by_cases h1 : 1 ≤ p ∧ p ≤ sp - 1
      · rw [if_pos h1, if_pos (by omega)]
      · rw [if_neg h1, if_neg (by omega)]

theorem gstep_InvCov (env : Env) {s : GState} {n : Nat} (hg : InvG s n) (hc : InvCov s n)
    (text : Str) : InvCov (gstep env s (n, .ok text)) (n + 1) := by
  cases hx : extract_filename_year_month_avs text with
  | some fn =>
    by_cases hcpv : s.current_pages = []
    · rw [gstep_boundary hx, if_pos hcpv]
      refine ⟨?_, ?_⟩
      · intro hnil
        exact absurd hnil (by simp)
      · intro sp hsp
        have hspv : n + 1 = sp := by injection hsp
        subst hspv
        refine ⟨?_, ?_⟩
        · show [n] = List.range' (n + 1 - 1) (n + 1 + 1 - (n + 1))
          rw [show n + 1 + 1 - (n + 1) = 1 from by omega]
          simp [List.range']
        · intro p
          have := hc.cov_closed hcpv p
          rw [show n + 1 - 1 = n from by omega]
          exact this
    · rw [gstep_boundary hx, if_neg hcpv]
      refine ⟨?_, ?_⟩
      · intro hnil
        exact absurd hnil (by simp)
      · intro sp hsp
        have hspv : n + 1 = sp := by injection hsp
        subst hspv
        refine ⟨?_, ?_⟩
        · show [n] = List.range' (n + 1 - 1) (n + 1 + 1 - (n + 1))
          rw [show n + 1 + 1 - (n + 1) = 1 from by omega]
          simp [List.range']
        · intro p
          have := flush_cov env hg hc p
          rw [show n + 1 - 1 = n from by omega]
          exact this
  | none =>
    by_cases hcpv : s.current_pages = []
    · have hst : s.current_start_page = none := (hg.closed_rec hcpv).2
      cases hw : env.writeRes s.wctr with
      | none =>
        rw [gstep_orphan_ok hx hcpv hw]
        refine ⟨?_, ?_⟩
        · intro _ p
          exact cover_step (hc.cov_closed hcpv) rfl p
        · intro sp hsp
          have hsp2 : s.current_start_page = some sp := hsp
          rw [hst] at hsp2
          exact Option.noConfusion hsp2
      | some e =>
        rw [gstep_orphan_fail hx hcpv hw]
        obtain ⟨r, hchr, _, hrpg, _⟩ := pageError_fields env
          { s with
            wctr := s.wctr + 1,
            writeLog := s.writeLog ++
              [([n], pathJoin env.errDir
                (strOf "orphan_page_" ++ pad3 (n + 1) ++ strOf ".pdf"))] } n e
        refine ⟨?_, ?_⟩
        · intro _ p
          have hrec : (pageError env
              { s with
                wctr := s.wctr + 1,
                writeLog := s.writeLog ++
                  [([n], pathJoin env.errDir
                    (strOf "orphan_page_" ++ pad3 (n + 1) ++ strOf ".pdf"))] } n e).records =
              s.records ++ [r] := by rw [hchr]
          rw [hrec]
          exact cover_step (hc.cov_closed hcpv) hrpg p
        · intro sp hsp
          have heq : (pageError env
              { s with
                wctr := s.wctr + 1,
                writeLog := s.writeLog ++
                  [([n], pathJoin env.errDir
                    (strOf "orphan_page_" ++ pad3 (n + 1) ++ strOf ".pdf"))] } n e
              ).current_start_page = s.current_start_page := by rw [hchr]
          rw [heq, hst] at hsp
          exact Option.noConfusion hsp
    · rw [gstep_cont hx hcpv]
      obtain ⟨fn, sp, hfn, hsp, _, hsp1, hspn, _⟩ := hg.open_rec hcpv
      obtain ⟨hrange, hcov⟩ := hc.cov_open sp hsp
      refine ⟨?_, ?_⟩
      · intro hnil
        exact absurd hnil (by simp [hcpv])
      · intro sp2 hsp2
        have hs2 : s.current_start_page = some sp2 := hsp2
        rw [hsp] at hs2
        injection hs2 with hs2
        subst hs2
        refine ⟨?_, hcov⟩
        show s.current_pages ++ [n] = List.range' (sp - 1) (n + 1 + 1 - sp)
        rw [hrange, show n + 1 + 1 - sp = (n + 1 - sp) + 1 from by omega,
          List.range'_concat,
          show sp - 1 + 1 * (n + 1 - sp) = n from by omega]

theorem runPages_cov (env : Env) :
    ∀ (l : List (Except Str Str)) (n : Nat) (s : GState),
    (∀ pg ∈ l, pg.isOk = true) → InvG s n → InvCov s n →
    InvCov (runPages env s (List.enumFrom n l)) (n + l.length) := by
  intro l
  induction l with
  | nil => intro n s _ _ hc; simpa using hc
  | cons x xs ih =>
    intro n s hok hg hc
    obtain ⟨t, rfl⟩ : ∃ t, x = Except.ok t := by
      cases x with
      | ok t => exact ⟨t, rfl⟩
      | error e =>
        have hf := hok (Except.error e) (List.mem_cons_self _ _)
        simp [Except.isOk, Except.toBool] at hf
    have h2 := ih (n + 1) (gstep env s (n, .ok t)) (fun pg hm => hok pg (by simp [hm]))
      (gstep_InvG env hg (.ok t)) (gstep_InvCov env hg hc t)
    rw [show n + (Except.ok t :: xs).length = (n + 1) + xs.length from by
      simp [List.length_cons]; omega]
    exact h2

theorem grouped_cov_final (env : Env) (hok : ∀ pg ∈ env.pages, pg.isOk = true) :
    ∀ p : Nat, coverCount (splitGroupedState env).records p =
      if 1 ≤ p ∧ p ≤ env.pages.length then 1 else 0 := by
  have hg := runPages_InvG env env.pages 0 initG InvG_init
  have hc := runPages_cov env env.pages 0 initG hok InvG_init InvCov_init
  rw [Nat.zero_add] at hg hc
  exact flush_cov env hg hc

theorem flush_appends {env : Env} {s : GState} (hcp : ¬ s.current_pages = []) :
    ∃ r : Record, (flush_current env s).records = s.records ++ [r] := by
  unfold flush_current
  rw [if_neg hcp]
  (repeat' split) <;> exact ⟨_, rfl⟩

/-- C5 counterexample: on the text "Période : 13.2025 756.1234.5678.97" both the
period pattern and the AVS pattern find a match, yet the classifier returns no
identity, because the month number 13 is not a key of the month table — so
"complete identity iff both patterns match" fails as stated. -/
theorem C5_counterexample :
    (periodSearch (strOf "Période : 13.2025 756.1234.5678.97")).isSome = true ∧
    (avsSearch (strOf "Période : 13.2025 756.1234.5678.97")).isSome = true ∧
    extract_filename_year_month_avs (strOf "Période : 13.2025 756.1234.5678.97") = none := by
  refine ⟨?_, ?_, ?_⟩ <;> decide

/-- C5 (amended): the classifier returns a complete identity (a non-none
filename) iff the period pattern finds a match whose month number is a key of
the month table and the AVS pattern finds a match; and empty text always
classifies as no identity. -/
theorem C5_classifier_completeness (t : Str) :
    ((extract_filename_year_month_avs t).isSome = true ↔
      (∃ mo yr, periodSearch t = some (mo, yr) ∧ (MONTHS_FR mo).isSome = true) ∧
      (avsSearch t).isSome = true) ∧
    extract_filename_year_month_avs [] = none := by
  refine ⟨?_, rfl⟩
  unfold extract_filename_year_month_avs
  cases hp : periodSearch t with
  | none => simp [hp]
  | some pr =>
    obtain ⟨mo, yr⟩ := pr
    cases hm : MONTHS_FR mo with
    | none => simp [hp, hm]
    | some mn =>
      cases ha : avsSearch t with
      | none => simp [hp, hm, ha]
      | some avs => simp [hp, hm, ha]

/-- Witness for C5 at a concrete input. -/
theorem C5_classifier_completeness_witness :
    extract_filename_year_month_avs [] = none :=
  (C5_classifier_completeness []).2

/-- C9: classifying the same page text twice yields the same result, and
resolving an output name from the same identity-derived filename, the same
starting page and the same set of existing names (as a set, regardless of
list representation) yields the same output name. -/
theorem C9_determinism :
    (∀ t1 t2 : Str, t1 = t2 →
      extract_filename_year_month_avs t1 = extract_filename_year_month_avs t2) ∧
    (∀ (fn : Str) (sp : Nat) (ex1 ex2 : List Str), (∀ m : Str, m ∈ ex1 ↔ m ∈ ex2) →
      resolveName fn sp ex1 = resolveName fn sp ex2) := by
  constructor
  · intro t1 t2 h
    rw [h]
  · intro fn sp ex1 ex2 hex
    unfold resolveName
    by_cases hm : fn ∈ ex1
    · rw [if_pos hm, if_pos ((hex fn).1 hm)]
    · rw [if_neg hm, if_neg (fun hc => hm ((hex fn).2 hc))]

/-- Witness for C9 at concrete inputs. -/
theorem C9_determinism_witness :
    extract_filename_year_month_avs (strOf "abc") = extract_filename_year_month_avs (strOf "abc") ∧
    resolveName (strOf "a.pdf") 2 [strOf "a.pdf"] =
      resolveName (strOf "a.pdf") 2 [strOf "a.pdf", strOf "a.pdf"] :=
  ⟨C9_determinism.1 _ _ rfl, C9_determinism.2 _ 2 _ _ (by intro m; simp)⟩

/-- C2: in grouped mode, a page whose text yields a complete identity starts a
new record whose range begins at that page (held pages become exactly that
page, with its filename and one-indexed start page), and when a record was
open the previous record is finalized first, appending exactly one Ledger
entry for it. -/
theorem C2_boundary_correctness (env : Env) (s : GState) (i : Nat) (text fn : Str)
    (hx : extract_filename_year_month_avs text = some fn) :
    (gstep env s (i, .ok text)).current_pages = [i] ∧
    (gstep env s (i, .ok text)).current_filename = some fn ∧
    (gstep env s (i, .ok text)).current_start_page = some (i + 1) ∧
    (s.current_pages = [] → (gstep env s (i, .ok text)).records = s.records) ∧
    (s.current_pages ≠ [] →
      (gstep env s (i, .ok text)).records = (flush_current env s).records ∧
      ∃ r : Record, (flush_current env s).records = s.records ++ [r]) := by
  rw [gstep_boundary hx]
  by_cases hcp : s.current_pages = []
  · rw [if_pos hcp]
    exact ⟨rfl, rfl, rfl, fun _ => rfl, fun hc => absurd hcp hc⟩
  · rw [if_neg hcp]
    exact ⟨rfl, rfl, rfl, fun hc => absurd hc hcp, fun _ => ⟨rfl, flush_appends hcp⟩⟩

/-- Environment for the C2 witness: one boundary page, all writes succeed. -/
def envC2 : Env :=
  ⟨[Except.ok (strOf "Période : 01.2026 756.1234.5678.97")],
   fun _ => none, strOf "out", strOf "err"⟩

/-- Witness for C2 at a concrete input. -/
theorem C2_boundary_correctness_witness :
    (gstep envC2 initG (0, .ok (strOf "Période : 01.2026 756.1234.5678.97"))).current_pages
      = [0] :=
  (C2_boundary_correctness envC2 initG 0 (strOf "Période : 01.2026 756.1234.5678.97")
    (strOf "2026-janvier-756.1234.5678.97.pdf") (by decide)).1

/-- C4: in grouped mode, a page whose extraction raises appends exactly one
ERROR Ledger entry covering that single page, with the exception text in the
note; the open record state (pages, filename, start page) and all other
counters are unchanged, and the loop proceeds to the next page from the
updated state. -/
theorem C4_page_error_isolation (env : Env) (s : GState) (i : Nat) (e : Str) :
    (∃ r : Record,
      (gstep env s (i, .error e)).records = s.records ++ [r] ∧
      r.status = strOf "ERROR" ∧ rangeOfPages r.pages = (i + 1, i + 1) ∧ r.note = e) ∧
    (gstep env s (i, .error e)).current_pages = s.current_pages ∧
    (gstep env s (i, .error e)).current_filename = s.current_filename ∧
    (gstep env s (i, .error e)).current_start_page = s.current_start_page ∧
    (gstep env s (i, .error e)).errors = s.errors + 1 ∧
    (gstep env s (i, .error e)).ok_files = s.ok_files ∧
    (gstep env s (i, .error e)).fallback_pages = s.fallback_pages ∧
    (gstep env s (i, .error e)).orphan_pages = s.orphan_pages ∧
    ∀ rest, runPages env s ((i, Except.error e) :: rest) =
      runPages env (gstep env s (i, .error e)) rest := by
  rw [gstep_error]
  obtain ⟨r, hchr, hrst, hrpg, hrnote⟩ := pageError_fields env s i e
  refine ⟨⟨r, by rw [hchr], hrst, ?_, hrnote⟩, by rw [hchr], by rw [hchr], by rw [hchr],
    by rw [hchr], by rw [hchr], by rw [hchr], by rw [hchr], fun rest => rfl⟩
  rw [hrpg, rangeOfPages_decRepr]

/-- C7: when a record with a complete identity fails its primary write, a
fallback write of the same page range is attempted to the error directory
under the deterministic starting-page-derived name, and, whatever that second
write does, exactly one ERROR Ledger entry is appended whose note carries the
primary error; the record state is reset so the scan continues unaffected. -/
theorem C7_persistence_failure (env : Env) (s : GState) (fn e : Str) (sp : Nat)
    (hcp : s.current_pages ≠ []) (hfn : s.current_filename = some fn)
    (hsp : s.current_start_page = some sp) (hsp0 : sp ≠ 0)
    (hw : env.writeRes s.wctr = some e) :
    (∃ r : Record,
      (flush_current env s).records = s.records ++ [r] ∧
      r.status = strOf "ERROR" ∧ r.note = e) ∧
    (flush_current env s).errors = s.errors + 1 ∧
    (flush_current env s).ok_files = s.ok_files ∧
    (flush_current env s).writeLog = s.writeLog ++
      [(s.current_pages, pathJoin env.okDir (resolveName fn sp s.okNames)),
       (s.current_pages,
        pathJoin env.errDir (strOf "error_slip_p" ++ pad3 sp ++ strOf ".pdf"))] ∧
    (flush_current env s).current_pages = [] ∧
    (flush_current env s).current_filename = none ∧
    (flush_current env s).current_start_page = none := by
  have hch := flush_char_fail env s fn sp e hcp hfn hsp hsp0 hw
  exact ⟨⟨_, by rw [hch], rfl, rfl⟩, by rw [hch], by rw [hch], by rw [hch], by rw [hch],
    by rw [hch], by rw [hch]⟩

/-- Environment for the C7 witness: the first write attempt raises. -/
def envC7 : Env :=
  ⟨[Except.ok (strOf "Période : 01.2026 756.1234.5678.97")],
   fun n => if n = 0 then some (strOf "OSError: disk full") else none,
   strOf "out", strOf "err"⟩

/-- State for the C7 witness: a record open on page 1 with a resolved name. -/
def sC7 : GState :=
  ⟨[], 0, 0, 0, 0, [0], some (strOf "2026-janvier-756.1234.5678.97.pdf"), some 1, [], 0, []⟩

/-- Witness for C7 at a concrete input. -/
theorem C7_persistence_failure_witness :
    (flush_current envC7 sC7).errors = sC7.errors + 1 :=
  (C7_persistence_failure envC7 sC7 (strOf "2026-janvier-756.1234.5678.97.pdf")
    (strOf "OSError: disk full") 1 (by decide) rfl rfl (by decide) rfl).2.1

/-- C10: the grouped loop maintains the invariant that a non-empty held page
list always comes with a present filename, so the identity-absent branch of
flush_current never runs in a grouped-mode scan and no FALLBACK entry is ever
emitted by a grouped-mode run. -/
theorem C10_no_fallback_in_grouped (env : Env) (k : Nat) :
    ((stateAfter env k).current_pages ≠ [] →
      (stateAfter env k).current_filename.isSome = true) ∧
    ∀ r ∈ (splitGrouped env).records, r.status ≠ strOf "FALLBACK" := by
  constructor
  · intro hcp
    obtain ⟨fn, sp, hfn, _⟩ := (stateAfter_InvG env k).open_rec hcp
    rw [hfn]
    rfl
  · intro r hr hst
    have h0 := (splitGroupedState_InvG env).no_fb
    unfold countStatus at h0
    have := List.countP_eq_zero.1 h0 r hr
    exact this (by simp [hst])

/-- Environment for the C10 witness: one boundary page. -/
def envC10w : Env :=
  ⟨[Except.ok (strOf "Période : 01.2026 756.1234.5678.97")], fun _ => none,
   strOf "o", strOf "e"⟩

/-- Witness for C10 at a concrete input. -/
theorem C10_no_fallback_in_grouped_witness :
    (stateAfter envC10w 1).current_filename.isSome = true :=
  (C10_no_fallback_in_grouped envC10w 1).1 (by decide)

/-- C3: within one run and one freshly created destination directory, no two
RESOLVED (status OK) outcomes share an output file name, in grouped mode or in
per-page mode; and when the identity-derived base name already exists in the
destination, the zero-padded starting-page suffix is appended to it. -/
theorem C3_uniqueness :
    (∀ env : Env, (okFileList (splitGrouped env).records).Pairwise (fun a b => a ≠ b)) ∧
    (∀ env : Env, (okFileList (splitSingle env).records).Pairwise (fun a b => a ≠ b)) ∧
    (∀ (fn base : Str) (sp : Nat) (ex : List Str), fn ∈ ex → fn = base ++ strOf ".pdf" →
      resolveName fn sp ex = suffName base sp) :=
  ⟨fun env => (splitGroupedState_InvG env).ok_distinct,
   fun env => (splitSingleState_InvS env).ok_distinct,
   fun _ _ _ _ hmem hb => resolveName_mem hmem hb⟩

/-- Witness for C3 at a concrete input: the suffix rule applied to a name that
already exists. -/
theorem C3_uniqueness_witness :
    resolveName (strOf "a.pdf") 5 [strOf "a.pdf"] = suffName (strOf "a") 5 :=
  C3_uniqueness.2.2 (strOf "a.pdf") (strOf "a") 5 [strOf "a.pdf"] (by simp) (by decide)

/-- Environment for the C8 counterexample: a single orphan page. -/
def envC8x : Env :=
  ⟨[Except.ok (strOf "page sans identite")], fun _ => none, strOf "o", strOf "e"⟩

/-- C8 counterexample: a grouped run over one orphan page yields
fallback_pages = 1 while the Ledger holds no UNRESOLVED (FALLBACK) entry, so
"fallback_pages equals the number of FALLBACK entries" fails as stated. -/
theorem C8_counterexample :
    (splitGrouped envC8x).fallback_pages = 1 ∧
    countStatus (splitGrouped envC8x).records (strOf "FALLBACK") = 0 ∧
    (splitGrouped envC8x).orphans = 1 := by
  refine ⟨?_, ?_, ?_⟩ <;> decide

/-- C8 (amended): the summary counters reconcile with the Ledger tallies — in
grouped mode ok_files, errors, orphans and pages equal their tallies and
fallback_pages equals the FALLBACK tally plus the ORPHAN tally (every orphan
page also bumps the fallback counter); in per-page mode every counter equals
its tally exactly and no ORPHAN entry exists. -/
theorem C8_summary_reconciliation (env : Env) :
    ((splitGrouped env).ok_files = countStatus (splitGrouped env).records (strOf "OK") ∧
     (splitGrouped env).errors = countStatus (splitGrouped env).records (strOf "ERROR") ∧
     (splitGrouped env).orphans = countStatus (splitGrouped env).records (strOf "ORPHAN") ∧
     (splitGrouped env).fallback_pages =
       countStatus (splitGrouped env).records (strOf "FALLBACK") +
       countStatus (splitGrouped env).records (strOf "ORPHAN") ∧
     (splitGrouped env).pages = env.pages.length) ∧
    ((splitSingle env).ok_files = countStatus (splitSingle env).records (strOf "OK") ∧
     (splitSingle env).errors = countStatus (splitSingle env).records (strOf "ERROR") ∧
     (splitSingle env).fallback_pages =
       countStatus (splitSingle env).records (strOf "FALLBACK") ∧
     (splitSingle env).orphans = countStatus (splitSingle env).records (strOf "ORPHAN") ∧
     (splitSingle env).pages = env.pages.length) := by
  have hg := splitGroupedState_InvG env
  have hs := splitSingleState_InvS env
  exact ⟨⟨hg.cnt_ok, hg.cnt_err, hg.cnt_orph, hg.cnt_fb, rfl⟩,
    ⟨hs.cnt_ok, hs.cnt_err, hs.cnt_fb, hs.no_orph.symm, rfl⟩⟩

/-- Environment for the C1 counterexample: a boundary page, a failing page,
then a continuation page. -/
def envC1x : Env :=
  ⟨[Except.ok (strOf "Période : 01.2026 756.1234.5678.97"), Except.error (strOf "Boom"),
    Except.ok (strOf "suite")], fun _ => none, strOf "out", strOf "err"⟩

/-- C1 counterexample: in a grouped run where extraction of the middle page
raises while a record is open, that page is covered by two Ledger entries —
its own ERROR entry and the enclosing record's rendered range — so "every
page belongs to exactly one entry's page range" fails as stated. -/
theorem C1_counterexample :
    envC1x.pages.length = 3 ∧ coverCount (splitGrouped envC1x).records 2 = 2 := by
  refine ⟨rfl, ?_⟩
  decide

/-- C1 (amended): in per-page mode every page number 1..totalPages lies in
exactly one Ledger entry's rendered range, unconditionally; in grouped mode
the same holds provided every page's extraction succeeds. -/
theorem C1_coverage :
    (∀ env : Env, (∀ pg ∈ env.pages, pg.isOk = true) →
      ∀ p : Nat, 1 ≤ p → p ≤ env.pages.length →
      coverCount (splitGrouped env).records p = 1) ∧
    (∀ env : Env, ∀ p : Nat, 1 ≤ p → p ≤ env.pages.length →
      coverCount (splitSingle env).records p = 1) := by
  constructor
  · intro env hok p h1 h2
    have hc := grouped_cov_final env hok p
    rw [if_pos ⟨h1, h2⟩] at hc
    exact hc
  · intro env p h1 h2
    have hc := (splitSingleState_InvS env).cover p
    rw [if_pos ⟨h1, h2⟩] at hc
    exact hc

/-- Environment for the C1 witness: two classifiable pages. -/
def envC1w : Env :=
  ⟨[Except.ok (strOf "Période : 01.2026 756.1234.5678.97"), Except.ok (strOf "fin")],
   fun _ => none, strOf "o", strOf "e"⟩

/-- Witness for C1 at a concrete input. -/
theorem C1_coverage_witness :
    coverCount (splitGrouped envC1w).records 2 = 1 :=
  C1_coverage.1 envC1w (by decide) 2 (by decide) (by decide)

/-- Environment for the C6 counterexample: a boundary page, a failing page,
then two continuation pages. -/
def envC6x : Env :=
  ⟨[Except.ok (strOf "Période : 02.2026 756.1234.5678.97"), Except.error (strOf "Crash"),
    Except.ok (strOf "la suite"), Except.ok (strOf "encore")], fun _ => none,
   strOf "o", strOf "e"⟩

/-- C6 counterexample: when a page-level exception occurs while a record is
open, the page list actually persisted for the record is 0, 2, 3 — not
contiguous — while its rendered pages string is "1-4", which covers a page
that was never persisted with the record; so the claim fails as stated for
error runs. -/
theorem C6_counterexample :
    ((splitGroupedState envC6x).writeLog.getD 1 ([], [])).1 = [0, 2, 3] ∧
    (∀ a : Nat, ([0, 2, 3] : List Nat) ≠ List.range' a 3) ∧
    ((splitGroupedState envC6x).records.getD 1 ⟨[], [], [], [], [], [], [], []⟩).pages =
      strOf "1-4" := by
  refine ⟨by decide, ?_, by decide⟩
  intro a h
  rw [show List.range' a 3 = [a, a + 1, a + 2] from rfl] at h
  injection h with h1 h
  injection h with h2 h
  omega

/-- C6 (amended): in a grouped run where every extraction succeeds, an open
record's held page list is a non-empty contiguous ascending range whose first
element is the boundary page that triggered the record; flushing it appends
exactly one entry whose rendered range is that interval, and every write the
flush performs passes exactly that page list. -/
theorem C6_range_contiguity (env : Env) (hok : ∀ pg ∈ env.pages, pg.isOk = true) (k : Nat)
    (hcp : (stateAfter env k).current_pages ≠ []) :
    ∃ sp : Nat, (stateAfter env k).current_start_page = some sp ∧ 1 ≤ sp ∧
      (stateAfter env k).current_pages =
        List.range' (sp - 1) (stateAfter env k).current_pages.length ∧
      (stateAfter env k).current_pages.headD 0 = sp - 1 ∧
      ∃ r : Record,
        (flush_current env (stateAfter env k)).records =
          (stateAfter env k).records ++ [r] ∧
        rangeOfPages r.pages =
          (sp, sp - 1 + (stateAfter env k).current_pages.length) ∧
        ∀ w ∈ (flush_current env (stateAfter env k)).writeLog.drop
            (stateAfter env k).writeLog.length,
          w.1 = (stateAfter env k).current_pages := by
  have hg := stateAfter_InvG env k
  have hcv : InvCov (stateAfter env k) (env.pages.take k).length := by
    have := runPages_cov env (env.pages.take k) 0 initG
      (fun pg hm => hok pg (List.take_subset k env.pages hm)) InvG_init InvCov_init
    simpa [stateAfter] using this
  set nk := (env.pages.take k).length with hnk
  obtain ⟨fn, sp, hfn, hsp, _, hsp1, hspn, hhead⟩ := hg.open_rec hcp
  obtain ⟨hrange, _⟩ := hcv.cov_open sp hsp
  have hlen : (stateAfter env k).current_pages.length = nk + 1 - sp := by
    rw [hrange, List.length_range']
  have hlenpos : 1 ≤ nk + 1 - sp := by
    rcases Nat.eq_zero_or_pos (nk + 1 - sp) with h0 | h0
    · exact absurd (by rw [hrange, h0]; rfl) hcp
    · omega
  have hlast : (stateAfter env k).current_pages.getLastD 0 = nk - 1 := by
    rw [hrange, show nk + 1 - sp = (nk - sp) + 1 from by omega, List.range'_concat]
    simp
    omega
  have hsp0 : ¬ sp = 0 := by omega
  refine ⟨sp, hsp, hsp1, by rw [hlen]; exact hrange, hhead, ?_⟩
  have hend : sp - 1 + (stateAfter env k).current_pages.length = nk := by
    rw [hlen]; omega
  cases hw : env.writeRes (stateAfter env k).wctr with
  | none =>
    have hch := flush_char_ok env (stateAfter env k) fn sp hcp hfn hsp hsp0 hw
    refine ⟨_, by rw [hch], ?_, ?_⟩
    · show rangeOfPages (pagesStr sp ((stateAfter env k).current_pages.getLastD 0 + 1)) = _
      rw [rangeOfPages_pagesStr, hlast, hend]
      congr 1
      omega
    · intro w hw2
      have hlog : (flush_current env (stateAfter env k)).writeLog.drop
          (stateAfter env k).writeLog.length =
          [((stateAfter env k).current_pages,
            pathJoin env.okDir (resolveName fn sp (stateAfter env k).okNames))] := by
        rw [hch]
        exact List.drop_left _ _
      rw [hlog] at hw2
      simp only [List.mem_singleton] at hw2
      rw [hw2]
  | some e =>
    have hch := flush_char_fail env (stateAfter env k) fn sp e hcp hfn hsp hsp0 hw
    refine ⟨_, by rw [hch], ?_, ?_⟩
    · show rangeOfPages (pagesStr sp ((stateAfter env k).current_pages.getLastD 0 + 1)) = _
      rw [rangeOfPages_pagesStr, hlast, hend]
      congr 1
      omega
    · intro w hw2
      have hlog : (flush_current env (stateAfter env k)).writeLog.drop
          (stateAfter env k).writeLog.length =
          [((stateAfter env k).current_pages,
            pathJoin env.okDir (resolveName fn sp (stateAfter env k).okNames)),
           ((stateAfter env k).current_pages,
            pathJoin env.errDir (strOf "error_slip_p" ++ pad3 sp ++ strOf ".pdf"))] := by
        rw [hch]
        exact List.drop_left _ _
      rw [hlog] at hw2
      rcases List.mem_cons.1 hw2 with hw2 | hw2
      · rw [hw2]
      · simp only [List.mem_singleton] at hw2
        rw [hw2]

/-- Environment for the C6 witness: a boundary page and a continuation page. -/
def envC6w : Env :=
  ⟨[Except.ok (strOf "Période : 03.2026 756.1234.5678.97"), Except.ok (strOf "s")],
   fun _ => none, strOf "o", strOf "e"⟩

/-- Witness for C6 at a concrete input. -/
theorem C6_range_contiguity_witness :
    (stateAfter envC6w 2).current_pages.headD 0 = 0 := by
  obtain ⟨sp, hsp, _, _, hhead, _⟩ :=
    C6_range_contiguity envC6w (by decide) 2 (by decide)
  have h1 : (stateAfter envC6w 2).current_start_page = some 1 := by decide
  rw [h1] at hsp
  injection hsp with h2
  rw [hhead, ← h2]

end SplitFiches
